import Mathlib

/-!
# A shallow embedding of tinyformat.h (tinyformat namespace)

This file embeds the core of `src/tinyformat.h` — the literal scanner
(`printFormatStringLiteral`), the directive terminator (`findFormatSpecEnd`),
the directive interpreter (`streamStateFromFormat`), the value dispatcher
(`formatValue` / `formatValueBasic` / `formatCStringTruncate`) and the
argument sequencer (`format`) — as executable Lean definitions, and proves
properties of them.

Modelling conventions:

* C strings (the template and `const char*` arguments) are `List Char`
  values assumed to contain no interior null character; the C test
  `*c == '\0'` corresponds to the list being empty, and reading `*c` at the
  end of the buffer yields the null character (`chr []`).
* The `std::ostream` formatting state (width, precision, fill, format
  flags) is the structure `StreamState`; the flag bits that
  `streamStateFromFormat` resets are individual fields.  `boolalpha` stands
  for the flag bits (`boolalpha`, `skipws`, `unitbuf`) the reset leaves
  untouched.  The output stream is `OS`: a state, a character buffer, and
  the list of diagnostic reason strings passed to `TINYFORMAT_ERROR`.
* `TINYFORMAT_ERROR(reason)` is modelled as appending `reason` to the
  error list and continuing, which is the behaviour of the code under a
  user-installed hook that records the reason and returns (and of the
  default `assert` under `NDEBUG`).  Under the default aborting hook the
  post-call state is unobservable, so this is the only semantics under
  which "state after the call" is meaningful on error paths.
* Formatted insertion (`operator<<`) of ints, chars and strings follows
  the C++ standard `num_put` / padding rules: pad to `width` with `fill`
  according to the active `adjustfield`, reset width to 0 afterwards;
  for oct/hex an `int` is converted through `unsigned int` (32 bits).
* Machine integers are `Int` / `Nat`; widths and precisions parsed from a
  template are the small nonnegative values `parseIntAndAdvance` returns.
-/

namespace Tinyformat

/-- `std::ios` adjustfield: no bit set, `left`, `right`, or `internal`. -/
inductive Adjust where
  | adjNone
  | left
  | right
  | internal
deriving DecidableEq, Repr

/-- `std::ios` basefield: no bit set, `dec`, `oct`, or `hex`. -/
inductive BaseField where
  | baseNone
  | baseDec
  | baseOct
  | baseHex
deriving DecidableEq, Repr

/-- `std::ios` floatfield: no bit set, `fixed`, or `scientific`. -/
inductive FloatField where
  | floatNone
  | fixed
  | scientific
deriving DecidableEq, Repr

/-- The format-flag portion of `std::ios_base` state touched by tinyformat.
`boolalpha` stands for the bits the reset in `streamStateFromFormat`
deliberately leaves alone (boolalpha, skipws, unitbuf). -/
structure FmtFlags where
  adjust : Adjust
  base : BaseField
  floatf : FloatField
  showbase : Bool
  showpoint : Bool
  showpos : Bool
  uppercase : Bool
  boolalpha : Bool
deriving DecidableEq, Repr

/-- The `std::ostream` formatting state: width, precision, fill, flags. -/
structure StreamState where
  width : Int
  precision : Int
  fill : Char
  flags : FmtFlags
deriving DecidableEq, Repr

/-- An output stream: formatting state, output buffer, and the reasons
passed to `TINYFORMAT_ERROR` so far (see the modelling note above). -/
structure OS where
  state : StreamState
  buf : List Char
  errs : List String
deriving DecidableEq, Repr

/-- The two `detail::ExtraFormatFlags` bits. -/
structure Extra where
  truncate : Bool
  spacePad : Bool
deriving DecidableEq, Repr

/-- The empty `ExtraFormatFlags` bit set. -/
def noExtra : Extra := ⟨false, false⟩

/-- The character read when C code dereferences the terminating null. -/
def nulChar : Char := Char.ofNat 0

/-- `*c` for a scan position in a null-terminated buffer: the head of the
remaining characters, or the null character at the end. -/
def chr : List Char → Char
  | [] => nulChar
  | c :: _ => c

/-- `*c >= '0' && *c <= '9'`. -/
def isDigitChar (c : Char) : Bool := 48 ≤ c.toNat && c.toNat ≤ 57

/-- The characters handled by the flag-parsing `switch`:
`'#'`, `'0'`, `'-'`, `' '`, `'+'`. -/
def isFlagChar (c : Char) : Bool :=
  c = '#' || c = '0' || c = '-' || c = ' ' || c = '+'

/-- The C99 length modifiers skipped by the scanner:
`'l'`, `'h'`, `'L'`, `'j'`, `'z'`, `'t'`. -/
def isLengthMod (c : Char) : Bool :=
  c = 'l' || c = 'h' || c = 'L' || c = 'j' || c = 'z' || c = 't'

/-- `(*c >= 'A' && *c <= 'Z') || (*c >= 'a' && *c <= 'z')`. -/
def isAlphaChar (c : Char) : Bool :=
  (65 ≤ c.toNat && c.toNat ≤ 90) || (97 ≤ c.toNat && c.toNat ≤ 122)

/-- A letter that terminates a conversion spec: alphabetic and not a
length modifier (the test made by `findFormatSpecEnd`'s loop body). -/
def isConvTermChar (c : Char) : Bool := isAlphaChar c && !isLengthMod c

/-- Diagnostic reasons, exactly the strings in the source. -/
def errVarWidth : String := "tinyformat: variable field widths not supported"

def errVarPrec : String := "tinyformat: variable precision not supported"

def errPercentN : String := "tinyformat: %n conversion spec not supported"

def errNotEnough : String :=
  "tinyformat: Not enough conversion specifiers in format string"

def errUnterminated : String :=
  "tinyformat: Conversion spec incorrectly terminated by end of string"

def errTooMany : String :=
  "tinyformat: Too many conversion specifiers in format string"

/-- Loop of `detail::parseIntAndAdvance`: `i = 10*i + (*c - '0')` while the
current character is a digit. Returns the value and the rest. -/
def parseIntAux (i : Nat) : List Char → Nat × List Char
  | [] => (i, [])
  | c :: rest =>
      if isDigitChar c then parseIntAux (10 * i + (c.toNat - 48)) rest
      else (i, c :: rest)

/-- `detail::parseIntAndAdvance`: parse an integer as `atoi` and advance. -/
def parseIntAndAdvance (l : List Char) : Nat × List Char := parseIntAux 0 l

/-- The value of a digit string (specification-side helper used to state
theorems about `parseIntAndAdvance`). -/
def digitsToNat (ds : List Char) : Nat :=
  ds.foldl (fun a c => 10 * a + (c.toNat - 48)) 0

/-- The state reset at the top of `streamStateFromFormat`: width 0,
precision 6, fill `' '`, and the adjust/base/float fields and the
showbase/showpoint/showpos/uppercase bits cleared (boolalpha-like bits are
left alone). -/
def resetState (st : StreamState) : StreamState :=
  { st with
    width := 0
    precision := 6
    fill := ' '
    flags := { st.flags with
      adjust := Adjust.adjNone
      base := BaseField.baseNone
      floatf := FloatField.floatNone
      showbase := false
      showpoint := false
      showpos := false
      uppercase := false } }

/-- One iteration of the flag-parsing `switch` in `streamStateFromFormat`,
applied to a character already known to be one of the five flags
(a non-flag character instead breaks out of the loop). -/
def applyFlag (p : StreamState × Extra) (c : Char) : StreamState × Extra :=
  let st := p.1
  let ex := p.2
  if c = '#' then
    ({ st with flags := { st.flags with showpoint := true, showbase := true } }, ex)
  else if c = '0' then
    -- overridden by left alignment ('-' flag)
    if st.flags.adjust = Adjust.left then (st, ex)
    else ({ st with fill := '0', flags := { st.flags with adjust := Adjust.internal } }, ex)
  else if c = '-' then
    ({ st with fill := ' ', flags := { st.flags with adjust := Adjust.left } }, ex)
  else if c = ' ' then
    -- overridden by show positive sign, '+' flag
    if st.flags.showpos then (st, ex) else (st, { ex with spacePad := true })
  else if c = '+' then
    ({ st with flags := { st.flags with showpos := true } }, { ex with spacePad := false })
  else (st, ex)

/-- The flag-parsing loop: apply `applyFlag` greedily until the first
character that is not one of `'#' '0' '-' ' ' '+'`, returning the updated
state and the remaining characters. -/
def parseFlagsLoop (p : StreamState × Extra) : List Char → (StreamState × Extra) × List Char
  | [] => (p, [])
  | c :: rest =>
      if isFlagChar c then parseFlagsLoop (applyFlag p c) rest
      else (p, c :: rest)

/-- Step 4 of `streamStateFromFormat`: skip any C99 length modifier. -/
def skipLengthMods : List Char → List Char
  | [] => []
  | c :: rest => if isLengthMod c then skipLengthMods rest else c :: rest

/-- The `switch(type)` of `streamStateFromFormat`: set stream flags from
the conversion specifier character.  Returns the updated state and extra
flags and the `intConversion` boolean.  The one `TINYFORMAT_ERROR` a case
raises (case `'n'`) is accounted for separately in `streamStateFromFormat`
(`errsT` there), since it is the switch's only side effect on the error
hook.  The C `case` fall-throughs (`'X'` into `'x','p'`, and the uppercase
float cases into their lowercase ones) are written out explicitly. -/
def convSwitch (st : StreamState) (ex : Extra) (precisionSet : Bool) (t : Char) :
    StreamState × Extra × Bool :=
  if t = 'u' ∨ t = 'd' ∨ t = 'i' then
    ({ st with flags := { st.flags with base := BaseField.baseDec } }, ex, true)
  else if t = 'o' then
    ({ st with flags := { st.flags with base := BaseField.baseOct } }, ex, true)
  else if t = 'X' then
    ({ st with flags := { st.flags with uppercase := true, base := BaseField.baseHex } },
      ex, true)
  else if t = 'x' ∨ t = 'p' then
    ({ st with flags := { st.flags with base := BaseField.baseHex } }, ex, true)
  else if t = 'E' then
    ({ st with flags :=
        { st.flags with uppercase := true, floatf := FloatField.scientific, base := BaseField.baseDec } },
      ex, false)
  else if t = 'e' then
    ({ st with flags :=
        { st.flags with floatf := FloatField.scientific, base := BaseField.baseDec } },
      ex, false)
  else if t = 'F' then
    ({ st with flags := { st.flags with uppercase := true, floatf := FloatField.fixed } },
      ex, false)
  else if t = 'f' then
    ({ st with flags := { st.flags with floatf := FloatField.fixed } }, ex, false)
  else if t = 'G' then
    ({ st with flags :=
        { st.flags with uppercase := true, base := BaseField.baseDec, floatf := FloatField.floatNone } },
      ex, false)
  else if t = 'g' then
    ({ st with flags :=
        { st.flags with base := BaseField.baseDec, floatf := FloatField.floatNone } },
      ex, false)
  else if t = 'a' ∨ t = 'A' then
    (st, ex, false)
  else if t = 'c' then
    -- handled as a special case inside formatValue()
    (st, ex, false)
  else if t = 's' then
    (st, (if precisionSet then { ex with truncate := true } else ex), false)
  else
    (st, ex, false)

/-- `detail::streamStateFromFormat`: parse the conversion spec (the
characters `spec` of the range `[fmtStart, fmtEnd)`) and set the stream
state accordingly.  Returns the new state, the extra-flag bits, and the
`TINYFORMAT_ERROR` reasons raised, in order. -/
def streamStateFromFormat (st0 : StreamState) (spec : List Char) :
    StreamState × Extra × List String :=
  -- Reset stream state to defaults.
  let stR := resetState st0
  -- 1) Parse flags
  let pf := parseFlagsLoop (stR, noExtra) spec
  let st1 := pf.1.1
  let ex1 := pf.1.2
  let r1 := pf.2
  -- 2) Parse width
  let pw :=
    if isDigitChar (chr r1) then
      let q := parseIntAndAdvance r1
      ({ st1 with width := (q.1 : Int) }, true, q.2)
    else (st1, false, r1)
  let st2 := pw.1
  let widthSet := pw.2.1
  let r2 := pw.2.2
  let errsW : List String := if chr r2 = '*' then [errVarWidth] else []
  -- 3) Parse precision
  let pp :=
    if chr r2 = '.' then
      let r := r2.tail
      let errsP : List String := if chr r = '*' then [errVarPrec] else []
      let q :=
        if isDigitChar (chr r) then parseIntAndAdvance r
        else if chr r = '-' then
          -- negative precisions ignored, treated as zero
          (0, (parseIntAndAdvance r.tail).2)
        else (0, r)
      ({ st2 with precision := (q.1 : Int) }, true, errsP, q.2)
    else (st2, false, [], r2)
  let st3 := pp.1
  let precisionSet := pp.2.1
  let errsP := pp.2.2.1
  let r3 := pp.2.2.2
  -- 4) Ignore any C99 length modifier
  let r4 := skipLengthMods r3
  -- 5) The conversion specifier character ('s' if past fmtEnd)
  let type : Char := chr r4
  let type := if r4.isEmpty then 's' else type
  let cs := convSwitch st3 ex1 precisionSet type
  let st4 := cs.1
  let ex2 := cs.2.1
  let intConversion := cs.2.2
  -- the switch's only TINYFORMAT_ERROR: case 'n'
  let errsT : List String := if type = 'n' then [errPercentN] else []
  -- precision for integers gives the minimum number of digits
  let st5 :=
    if intConversion ∧ precisionSet ∧ ¬widthSet then
      { st4 with width := st4.precision, fill := '0', flags := { st4.flags with adjust := Adjust.internal } }
    else st4
  (st5, ex2, errsW ++ errsP ++ errsT)

/-- `detail::printFormatStringLiteral`: copy literal characters to the
output, collapsing `%%` to `%`.  Returns the characters written and the
position of the first character of the next format spec (the character
after an unescaped `%`), or the end of the string. -/
def printFormatStringLiteral : List Char → List Char × List Char
  | [] => ([], [])
  | c :: rest =>
      if c = '%' then
        match rest with
        | [] => ([], [])
        | d :: rest' =>
            if d = '%' then
              -- for '%%' the required '%' is tacked onto the next section
              let q := printFormatStringLiteral rest'
              ('%' :: q.1, q.2)
            else ([], rest)
      else
        let q := printFormatStringLiteral rest
        (c :: q.1, q.2)

/-- Loop of `detail::findFormatSpecEnd`: skip length modifiers, terminate
at any other letter (inclusive), raise `errUnterminated` at the end of the
string.  Returns the spec characters (up to and including the terminating
letter), the remaining characters, and the errors raised. -/
def findFormatSpecEndLoop : List Char → List Char × List Char × List String
  | [] => ([], [], [errUnterminated])
  | c :: rest =>
      if isLengthMod c then
        let q := findFormatSpecEndLoop rest
        (c :: q.1, q.2.1, q.2.2)
      else if isAlphaChar c then ([c], rest, [])
      else
        let q := findFormatSpecEndLoop rest
        (c :: q.1, q.2.1, q.2.2)

/-- `detail::findFormatSpecEnd`: `fmt` points at the character after the
`'%'`; raise `errNotEnough` immediately on an empty spec (in which case the
loop then also raises `errUnterminated`). -/
def findFormatSpecEnd (fmt : List Char) : List Char × List Char × List String :=
  if fmt.isEmpty then ([], [], [errNotEnough, errUnterminated])
  else findFormatSpecEndLoop fmt

/-! ## Stream insertion (the `std::ostream` / `num_put` model)

Formatted insertion pads the converted text to the field `width` with the
`fill` character (before the text by default, after it for `left`, and
between the sign/base prefix and the digits for `internal` on numbers),
then resets `width` to 0.  `write` is unformatted output. -/

/-- The digit character for a value `< 16`: `'0'..'9'`, then `'a'..'f'`. -/
def digitChar (n : Nat) : Char :=
  if n < 10 then Char.ofNat (48 + n) else Char.ofNat (97 + (n - 10))

/-- Base-`b` digits of `n`, most significant first (`fuel`-driven loop). -/
def natDigitsAux (b : Nat) : Nat → Nat → List Char → List Char
  | 0, _, acc => acc
  | fuel + 1, n, acc =>
      if n < b then digitChar n :: acc
      else natDigitsAux b fuel (n / b) (digitChar (n % b) :: acc)

/-- Base-`b` digits of `n` as written by `num_put` (lowercase letters). -/
def natDigits (b n : Nat) : List Char := natDigitsAux b (n + 1) n []

/-- Unformatted output: `out.write(s)`. -/
def osWrite (o : OS) (s : List Char) : OS := { o with buf := o.buf ++ s }

/-- Pad a numeric token (sign/base prefix and digits) to the field width. -/
def padNumeric (st : StreamState) (sign digs : List Char) : List Char :=
  let len := sign.length + digs.length
  let w := st.width.toNat
  if len < w then
    if st.flags.adjust = Adjust.left then sign ++ digs ++ List.replicate (w - len) st.fill
    else if st.flags.adjust = Adjust.internal then sign ++ List.replicate (w - len) st.fill ++ digs
    else List.replicate (w - len) st.fill ++ sign ++ digs
  else sign ++ digs

/-- Pad a non-numeric token (character or string) to the field width:
fill goes after the text for `left`, before it otherwise. -/
def padText (st : StreamState) (t : List Char) : List Char :=
  let w := st.width.toNat
  if t.length < w then
    if st.flags.adjust = Adjust.left then t ++ List.replicate (w - t.length) st.fill
    else List.replicate (w - t.length) st.fill ++ t
  else t

/-- The sign/base prefix and digits of `out << i` for an `int` value `i`.
For `oct`/`hex` the value is converted through `unsigned int`, i.e. taken
mod `2^32`; `showbase` adds `0`/`0x` for nonzero values; `uppercase`
uppercases hex digits and the `0X` prefix; for decimal a negative value
gets `-` and `showpos` forces `+`. -/
def intToken (st : StreamState) (i : Int) : List Char × List Char :=
  if st.flags.base = BaseField.baseOct then
    let n := (i.emod (2 ^ 32)).toNat
    ((if st.flags.showbase ∧ n ≠ 0 then ['0'] else []), natDigits 8 n)
  else if st.flags.base = BaseField.baseHex then
    let n := (i.emod (2 ^ 32)).toNat
    let ds := natDigits 16 n
    let ds := if st.flags.uppercase then ds.map Char.toUpper else ds
    ((if st.flags.showbase ∧ n ≠ 0 then
        (if st.flags.uppercase then ['0', 'X'] else ['0', 'x'])
      else []), ds)
  else
    -- basefield dec, or no basefield bit: decimal
    if i < 0 then (['-'], natDigits 10 (-i).toNat)
    else ((if st.flags.showpos then ['+'] else []), natDigits 10 i.toNat)

/-- Formatted insertion of an `int`: `out << i`. -/
def osInsertInt (o : OS) (i : Int) : OS :=
  let tok := intToken o.state i
  { o with buf := o.buf ++ padNumeric o.state tok.1 tok.2
           state := { o.state with width := 0 } }

/-- Formatted insertion of a `char`: `out << c`. -/
def osInsertChar (o : OS) (c : Char) : OS :=
  { o with buf := o.buf ++ padText o.state [c]
           state := { o.state with width := 0 } }

/-- Formatted insertion of a C string or `std::string`: `out << s`. -/
def osInsertStr (o : OS) (s : List Char) : OS :=
  { o with buf := o.buf ++ padText o.state s
           state := { o.state with width := 0 } }

/-! ## The value dispatcher -/

/-- The protected value types the claims exercise.  `vInt` is a C `int`,
`vChar` a (signed, 8-bit) `char`, `vStr` a `const char*` argument (with no
interior null character). -/
inductive Value where
  | vInt (i : Int)
  | vChar (c : Char)
  | vStr (s : List Char)
deriving DecidableEq, Repr

/-- `static_cast<int>(c)` for a (signed, 8-bit) `char`: code points at and
above 128 are the negative values of the two's complement byte. -/
def charToIntCpp (c : Char) : Int :=
  if c.toNat < 128 then (c.toNat : Int) else (c.toNat : Int) - 256

/-- `static_cast<char>(i)` for an `int`: the value mod `2^8`. -/
def intToCharCpp (i : Int) : Char := Char.ofNat (i.emod 256).toNat

/-- Placeholder for the text `num_put` produces when inserting a
`const void*`: the rendering of a machine address is outside this
embedding.  No claim exercises the `%p`-with-pointer branch. -/
def pointerText : List Char := ['0', 'x', '?']

/-- `formatValue(out, fmtBegin, fmtEnd, value)`, resolved per value type.
`conv` is `*(fmtEnd-1)`.
* `vInt` takes the generic template: `int` is convertible to `char` but
  not to `const void*`, so `%c` casts to `char`, anything else inserts the
  `int`.
* `vChar` takes the character overload: under `u d i o X x` it inserts
  `static_cast<int>(value)`, otherwise the character itself.
* `vStr` takes the generic template: `const char*` is convertible to
  `const void*` but not to `char`, so `%p` inserts the address, anything
  else inserts the string. -/
def formatValue (o : OS) (conv : Char) (v : Value) : OS :=
  match v with
  | Value.vInt i =>
      if conv = 'c' then osInsertChar o (intToCharCpp i) else osInsertInt o i
  | Value.vChar c =>
      if conv = 'u' ∨ conv = 'd' ∨ conv = 'i' ∨ conv = 'o' ∨ conv = 'X' ∨ conv = 'x' then
        osInsertInt o (charToIntCpp c)
      else osInsertChar o c
  | Value.vStr s =>
      if conv = 'p' then osInsertStr o pointerText else osInsertStr o s

/-- `detail::formatCStringTruncate`: for a `char*`/`const char*` value,
write (unformatted) at most `truncLen` characters of it and report `true`;
for any other type do nothing and report `false`. -/
def formatCStringTruncate (o : OS) (v : Value) (truncLen : Int) : OS × Bool :=
  match v with
  | Value.vStr s => (osWrite o (s.take (min truncLen.toNat s.length)), true)
  | _ => (o, false)

/-- `formatValueBasic(out, fmtBegin, fmtEnd, value)`: save the stream
state, apply the conversion spec, render the value (directly, or through a
temporary buffer when extra-format flags are set), and restore the saved
width/precision/flags/fill.

`spec` is the spec character range `[fmtBegin, fmtEnd)`.  The conversion
character the dispatcher looks at is `*(fmtEnd-1)`; when the spec is empty
(which happens only after `findFormatSpecEnd` has already reported a fatal
error) that C expression reads the byte before the spec — the model uses
the null character for that read; no claim depends on this post-error
path. -/
def formatValueBasic (o : OS) (spec : List Char) (v : Value) : OS :=
  -- Save stream state
  let width := o.state.width
  let precision := o.state.precision
  let flags := o.state.flags
  let fill := o.state.fill
  -- Set stream state
  let ssf := streamStateFromFormat o.state spec
  let st1 := ssf.1
  let ex := ssf.2.1
  let o1 : OS := { state := st1, buf := o.buf, errs := o.errs ++ ssf.2.2 }
  let conv : Char := (spec.getLast?).getD nulChar
  -- Format the value into the stream
  let o2 :=
    if ex = noExtra then formatValue o1 conv v
    else
      -- simulate printf behaviour by formatting into a temporary stream
      -- and munging the resulting string
      let tmp : OS := { state := st1, buf := [], errs := [] }
      let tmp :=
        if ex.spacePad then
          { tmp with state := { tmp.state with flags := { tmp.state.flags with showpos := true } } }
        else tmp
      let fct := if ex.truncate then formatCStringTruncate tmp v st1.precision else (tmp, false)
      let tmp2 := if fct.2 then fct.1 else formatValue fct.1 conv v
      let result := tmp2.buf
      let result :=
        if ex.spacePad then result.map (fun c => if c = '+' then ' ' else c) else result
      if ex.truncate ∧ (result.length : Int) > st1.precision then
        osWrite o1 (result.take st1.precision.toNat)
      else osInsertStr o1 result
  -- Restore stream state
  { o2 with state := { o2.state with width := width, precision := precision, flags := flags, fill := fill } }

/-! ## The argument sequencer -/

/-- `format(out, fmt, args...)`: the zero-argument base case copies the
remaining literal text and raises `errTooMany` if a conversion spec
remains; the recursive case prints one literal section, finds and applies
one conversion spec to one argument, and recurses. -/
def formatImpl : List Value → OS → List Char → OS
  | [], o, fmt =>
      let q := printFormatStringLiteral fmt
      let o := osWrite o q.1
      if q.2.isEmpty then o else { o with errs := o.errs ++ [errTooMany] }
  | v :: vs, o, fmt =>
      let q := printFormatStringLiteral fmt
      let o := osWrite o q.1
      let f := findFormatSpecEnd q.2
      let o := { o with errs := o.errs ++ f.2.2 }
      let o := formatValueBasic o f.1 v
      formatImpl vs o f.2.1

/-- The state of a freshly constructed `std::ostringstream`: width 0,
precision 6, fill `' '`, flags `dec` (and nothing else). -/
def defaultStreamState : StreamState :=
  { width := 0
    precision := 6
    fill := ' '
    flags :=
      { adjust := Adjust.adjNone
        base := BaseField.baseDec
        floatf := FloatField.floatNone
        showbase := false
        showpoint := false
        showpos := false
        uppercase := false
        boolalpha := false } }

/-- The string-building entry point `tfm::format(fmt, args...)`: run the
sequencer on a fresh string stream. -/
def tfmFormat (fmt : List Char) (args : List Value) : OS :=
  formatImpl args ⟨defaultStreamState, [], []⟩ fmt

/-! ## Helper lemmas: the literal scanner -/

theorem printLit_pctpct (tail : List Char) :
    printFormatStringLiteral ('%' :: '%' :: tail) =
      ('%' :: (printFormatStringLiteral tail).1, (printFormatStringLiteral tail).2) := rfl

theorem printLit_pct_ne (c : Char) (tail : List Char) (hc : c ≠ '%') :
    printFormatStringLiteral ('%' :: c :: tail) = ([], c :: tail) := by
  rw [printFormatStringLiteral.eq_def]
  simp [hc]

theorem printLit_ne (c : Char) (tail : List Char) (hc : c ≠ '%') :
    printFormatStringLiteral (c :: tail) =
      (c :: (printFormatStringLiteral tail).1, (printFormatStringLiteral tail).2) := by
  rw [printFormatStringLiteral.eq_def]
  simp [hc]

theorem printLit_no_pct (t : List Char) (h : ∀ c ∈ t, c ≠ '%') :
    printFormatStringLiteral t = (t, []) := by
  induction t with
  | nil => rfl
  | cons c rest ih =>
      have hc : c ≠ '%' := h c (List.mem_cons_self c rest)
      have hr : ∀ d ∈ rest, d ≠ '%' := fun d hd => h d (List.mem_cons_of_mem c hd)
      rw [printLit_ne c rest hc, ih hr]

theorem printLit_collapse (l1 l2 : List Char) (h : ∀ c ∈ l1, c ≠ '%') :
    printFormatStringLiteral (l1 ++ '%' :: '%' :: l2) =
      (l1 ++ '%' :: (printFormatStringLiteral l2).1, (printFormatStringLiteral l2).2) := by
  induction l1 with
  | nil => simp [printLit_pctpct]
  | cons c rest ih =>
      have hc : c ≠ '%' := h c (List.mem_cons_self c rest)
      have hr : ∀ d ∈ rest, d ≠ '%' := fun d hd => h d (List.mem_cons_of_mem c hd)
      simp only [List.cons_append, printLit_ne c _ hc, ih hr, List.cons.injEq, true_and]

theorem printLit_rem_length_le (t : List Char) :
    (printFormatStringLiteral t).2.length ≤ t.length := by
  induction t using printFormatStringLiteral.induct with
  | case1 => simp [printFormatStringLiteral]
  | case2 => simp [printFormatStringLiteral]
  | case3 tail ih => rw [printLit_pctpct]; exact Nat.le_succ_of_le (Nat.le_succ_of_le ih)
  | case4 c tail hc => rw [printLit_pct_ne c tail hc]; simp
  | case5 c tail hc ih => rw [printLit_ne c tail hc]; exact Nat.le_succ_of_le ih

/-! ## Helper lemmas: the directive terminator -/

theorem ffseLoop_cons_skip (c : Char) (rest : List Char)
    (hc : isConvTermChar c = false) :
    findFormatSpecEndLoop (c :: rest) =
      (c :: (findFormatSpecEndLoop rest).1, (findFormatSpecEndLoop rest).2.1,
        (findFormatSpecEndLoop rest).2.2) := by
  rw [findFormatSpecEndLoop.eq_def]
  by_cases hmod : isLengthMod c = true
  · simp [hmod]
  · have hmod' : isLengthMod c = false := by simpa using hmod
    have halpha : isAlphaChar c = false := by
      simpa [isConvTermChar, hmod'] using hc
    simp [hmod', halpha]

theorem ffseLoop_cons_term (c : Char) (rest : List Char)
    (hc : isConvTermChar c = true) :
    findFormatSpecEndLoop (c :: rest) = ([c], rest, []) := by
  simp only [isConvTermChar, Bool.and_eq_true, Bool.not_eq_true'] at hc
  rw [findFormatSpecEndLoop.eq_def]
  simp [hc.1, hc.2]

theorem ffseLoop_skip (pre : List Char) (c : Char) (rest : List Char)
    (hpre : ∀ d ∈ pre, isConvTermChar d = false) (hc : isConvTermChar c = true) :
    findFormatSpecEndLoop (pre ++ c :: rest) = (pre ++ [c], rest, []) := by
  induction pre with
  | nil => simpa using ffseLoop_cons_term c rest hc
  | cons d pre' ih =>
      have hd : isConvTermChar d = false := hpre d (List.mem_cons_self d pre')
      have hpre' : ∀ e ∈ pre', isConvTermChar e = false :=
        fun e he => hpre e (List.mem_cons_of_mem d he)
      simp [ffseLoop_cons_skip d _ hd, ih hpre']

theorem ffseLoop_unterminated (l : List Char)
    (h : ∀ d ∈ l, isConvTermChar d = false) :
    findFormatSpecEndLoop l = (l, [], [errUnterminated]) := by
  induction l with
  | nil => rfl
  | cons d l' ih =>
      have hd : isConvTermChar d = false := h d (List.mem_cons_self d l')
      have h' : ∀ e ∈ l', isConvTermChar e = false :=
        fun e he => h e (List.mem_cons_of_mem d he)
      simp [ffseLoop_cons_skip d _ hd, ih h']

theorem ffseLoop_errs (l : List Char) :
    (findFormatSpecEndLoop l).2.2 = [] ∨ (findFormatSpecEndLoop l).2.2 = [errUnterminated] := by
  induction l with
  | nil => simp [findFormatSpecEndLoop]
  | cons c rest ih =>
      by_cases hc : isConvTermChar c = true
      · simp [ffseLoop_cons_term c rest hc]
      · have hc' : isConvTermChar c = false := by simpa using hc
        simpa [ffseLoop_cons_skip c rest hc'] using ih

theorem ffseLoop_rest_le (l : List Char) :
    (findFormatSpecEndLoop l).2.1.length ≤ l.length := by
  induction l with
  | nil => simp [findFormatSpecEndLoop]
  | cons c rest ih =>
      by_cases hc : isConvTermChar c = true
      · simp [ffseLoop_cons_term c rest hc]
      · have hc' : isConvTermChar c = false := by simpa using hc
        simp only [ffseLoop_cons_skip c rest hc']
        exact Nat.le_succ_of_le ih

theorem ffse_rest_lt (l : List Char) (h : l ≠ []) :
    (findFormatSpecEnd l).2.1.length < l.length := by
  match l with
  | c :: rest =>
      have hne : (c :: rest).isEmpty = false := rfl
      simp only [findFormatSpecEnd, hne, Bool.false_eq_true, if_false]
      by_cases hc : isConvTermChar c = true
      · simp [ffseLoop_cons_term c rest hc]
      · have hc' : isConvTermChar c = false := by simpa using hc
        simp only [ffseLoop_cons_skip c rest hc']
        exact Nat.lt_succ_of_le (ffseLoop_rest_le rest)

/-! ## Helper lemmas: flag parsing

The flag-parsing loop, started from the reset state, lands in a state
fully determined by which of the five flag characters occur: this is the
canonical form below. -/

/-- The stream state and extra flags after applying any flag sequence in
which exactly the flags indicated by the five booleans occur, starting
from the reset state. -/
def canonFlags (st0 : StreamState) (hashF zeroF minusF spaceF plusF : Bool) :
    StreamState × Extra :=
  let r := resetState st0
  ({ r with
      fill := if minusF then ' ' else if zeroF then '0' else ' '
      flags := { r.flags with
        showpoint := hashF
        showbase := hashF
        adjust :=
          if minusF then Adjust.left else if zeroF then Adjust.internal else Adjust.adjNone
        showpos := plusF } },
    ⟨false, spaceF && !plusF⟩)

theorem canonFlags_false (st0 : StreamState) :
    canonFlags st0 false false false false false = (resetState st0, noExtra) := rfl

theorem canon_step (st0 : StreamState) (h0 z m s p : Bool) (c : Char)
    (hc : isFlagChar c = true) :
    applyFlag (canonFlags st0 h0 z m s p) c =
      canonFlags st0 (h0 || (c = '#')) (z || (c = '0')) (m || (c = '-'))
        (s || (c = ' ')) (p || (c = '+')) := by
  simp only [isFlagChar, Bool.or_eq_true, decide_eq_true_eq] at hc
  rcases hc with ((((hc | hc) | hc) | hc) | hc) <;> subst hc
  · simp [applyFlag, canonFlags]
  · cases m <;> cases z <;> simp [applyFlag, canonFlags]
  · simp [applyFlag, canonFlags]
  · cases p <;> simp [applyFlag, canonFlags]
  · simp [applyFlag, canonFlags]

theorem foldl_applyFlag_canon (st0 : StreamState) (fl : List Char)
    (hfl : ∀ c ∈ fl, isFlagChar c = true) (h0 z m s p : Bool) :
    List.foldl applyFlag (canonFlags st0 h0 z m s p) fl =
      canonFlags st0 (h0 || fl.contains '#') (z || fl.contains '0')
        (m || fl.contains '-') (s || fl.contains ' ') (p || fl.contains '+') := by
  induction fl generalizing h0 z m s p with
  | nil => simp
  | cons c rest ih =>
      have hc : isFlagChar c = true := hfl c (List.mem_cons_self c rest)
      have hrest : ∀ d ∈ rest, isFlagChar d = true :=
        fun d hd => hfl d (List.mem_cons_of_mem c hd)
      simp only [List.foldl_cons, canon_step st0 h0 z m s p c hc, ih hrest]
      simp [List.contains_cons, Bool.or_assoc, Bool.or_comm, Bool.or_left_comm, eq_comm]

theorem parseFlagsLoop_flags (p : StreamState × Extra) (fl : List Char)
    (hfl : ∀ c ∈ fl, isFlagChar c = true) (r : List Char)
    (hr : isFlagChar (chr r) = false) :
    parseFlagsLoop p (fl ++ r) = (List.foldl applyFlag p fl, r) := by
  induction fl generalizing p with
  | nil =>
      match r with
      | [] => rfl
      | c :: rest =>
          simp only [chr] at hr
          simp [parseFlagsLoop, hr]
  | cons c rest ih =>
      have hc : isFlagChar c = true := hfl c (List.mem_cons_self c rest)
      have hrest : ∀ d ∈ rest, isFlagChar d = true :=
        fun d hd => hfl d (List.mem_cons_of_mem c hd)
      simp only [List.cons_append, parseFlagsLoop, hc, if_true, List.foldl_cons]
      exact ih (applyFlag p c) hrest

/-! ## Helper lemmas: integer parsing and digit rendering -/

theorem parseIntAux_digits (ds : List Char) (hds : ∀ c ∈ ds, isDigitChar c = true)
    (r : List Char) (hr : isDigitChar (chr r) = false) (i : Nat) :
    parseIntAux i (ds ++ r) = (ds.foldl (fun a c => 10 * a + (c.toNat - 48)) i, r) := by
  induction ds generalizing i with
  | nil =>
      match r with
      | [] => rfl
      | c :: rest =>
          simp only [chr] at hr
          simp [parseIntAux, hr]
  | cons c rest ih =>
      have hc : isDigitChar c = true := hds c (List.mem_cons_self c rest)
      have hrest : ∀ d ∈ rest, isDigitChar d = true :=
        fun d hd => hds d (List.mem_cons_of_mem c hd)
      simp only [List.cons_append, parseIntAux, hc, if_true, List.foldl_cons]
      exact ih hrest _

theorem parseIntAndAdvance_digits (ds : List Char) (hds : ∀ c ∈ ds, isDigitChar c = true)
    (r : List Char) (hr : isDigitChar (chr r) = false) :
    parseIntAndAdvance (ds ++ r) = (digitsToNat ds, r) :=
  parseIntAux_digits ds hds r hr 0

theorem natDigitsAux_mem (b : Nat) (hb : 0 < b) (fuel : Nat) :
    ∀ (n : Nat) (acc : List Char) (c : Char), c ∈ natDigitsAux b fuel n acc →
      c ∈ acc ∨ ∃ k, k < b ∧ c = digitChar k := by
  induction fuel with
  | zero => intro n acc c hc; exact Or.inl hc
  | succ fuel ih =>
      intro n acc c hc
      simp only [natDigitsAux] at hc
      by_cases hn : n < b
      · simp only [hn, if_true, List.mem_cons] at hc
        rcases hc with hc | hc
        · exact Or.inr ⟨n, hn, hc⟩
        · exact Or.inl hc
      · simp only [hn, if_false] at hc
        rcases ih (n / b) (digitChar (n % b) :: acc) c hc with hin | hk
        · rcases List.mem_cons.mp hin with hc' | hc'
          · exact Or.inr ⟨n % b, Nat.mod_lt n hb, hc'⟩
          · exact Or.inl hc'
        · exact Or.inr hk

theorem digitChar_ne_plus (k : Nat) (hk : k < 16) : digitChar k ≠ '+' := by
  interval_cases k <;> decide

theorem natDigits_no_plus (b n : Nat) (hb : 0 < b) (hb16 : b ≤ 16) (c : Char)
    (hc : c ∈ natDigits b n) : c ≠ '+' := by
  rcases natDigitsAux_mem b hb (n + 1) n [] c hc with h | ⟨k, hk, hck⟩
  · cases h
  · exact hck ▸ digitChar_ne_plus k (by omega)

theorem map_unplus_of_no_plus (l : List Char) (h : ∀ c ∈ l, c ≠ '+') :
    l.map (fun c => if c = '+' then ' ' else c) = l := by
  induction l with
  | nil => rfl
  | cons c rest ih =>
      have hc : c ≠ '+' := h c (List.mem_cons_self c rest)
      have hrest : ∀ d ∈ rest, d ≠ '+' := fun d hd => h d (List.mem_cons_of_mem c hd)
      simp [hc, ih hrest]

/-! ## The number of conversion specs in a template

`specCount` counts the genuine conversion specs the sequencer will
consume: a literal scan followed, if a spec remains, by skipping it.  The
fuel argument only drives termination; `specCountAux_congr` shows any
sufficient fuel computes the same value. -/

def specCountAux : Nat → List Char → Nat
  | 0, _ => 0
  | fuel + 1, fmt =>
      let rem := (printFormatStringLiteral fmt).2
      if rem.isEmpty then 0
      else 1 + specCountAux fuel (findFormatSpecEnd rem).2.1

def specCount (fmt : List Char) : Nat := specCountAux (fmt.length + 1) fmt

theorem specCountAux_congr (f1 : Nat) :
    ∀ (f2 : Nat) (fmt : List Char), fmt.length < f1 → fmt.length < f2 →
      specCountAux f1 fmt = specCountAux f2 fmt := by
  induction f1 with
  | zero => intro f2 fmt h1 _; omega
  | succ f1 ih =>
      intro f2 fmt h1 h2
      match f2 with
      | 0 => omega
      | g + 1 =>
          simp only [specCountAux]
          by_cases hrem : (printFormatStringLiteral fmt).2.isEmpty
          · simp [hrem]
          · simp only [hrem, Bool.false_eq_true, if_false]
            have hne : (printFormatStringLiteral fmt).2 ≠ [] := by
              intro h; rw [h] at hrem; exact hrem rfl
            have hlt := ffse_rest_lt _ hne
            have hle := printLit_rem_length_le fmt
            have := ih g ((findFormatSpecEnd (printFormatStringLiteral fmt).2).2.1)
              (by omega) (by omega)
            omega

theorem specCount_eq (fmt : List Char) :
    specCount fmt =
      if (printFormatStringLiteral fmt).2.isEmpty then 0
      else 1 + specCount ((findFormatSpecEnd (printFormatStringLiteral fmt).2).2.1) := by
  unfold specCount
  conv_lhs => rw [specCountAux]
  by_cases hrem : (printFormatStringLiteral fmt).2.isEmpty
  · simp [hrem]
  · simp only [hrem, Bool.false_eq_true, if_false]
    have hne : (printFormatStringLiteral fmt).2 ≠ [] := by
      intro h; rw [h] at hrem; exact hrem rfl
    have hlt := ffse_rest_lt _ hne
    have hle := printLit_rem_length_le fmt
    have := specCountAux_congr (fmt.length)
      (((findFormatSpecEnd (printFormatStringLiteral fmt).2).2.1).length + 1)
      ((findFormatSpecEnd (printFormatStringLiteral fmt).2).2.1) (by omega) (by omega)
    omega

/-! ## Helper lemmas: error bookkeeping -/

theorem osWrite_errs (o : OS) (s : List Char) : (osWrite o s).errs = o.errs := rfl

theorem osInsertInt_errs (o : OS) (i : Int) : (osInsertInt o i).errs = o.errs := rfl

theorem osInsertChar_errs (o : OS) (c : Char) : (osInsertChar o c).errs = o.errs := rfl

theorem osInsertStr_errs (o : OS) (s : List Char) : (osInsertStr o s).errs = o.errs := rfl

theorem formatValue_errs (o : OS) (conv : Char) (v : Value) :
    (formatValue o conv v).errs = o.errs := by
  cases v <;> simp only [formatValue] <;> split <;>
    simp [osInsertInt_errs, osInsertChar_errs, osInsertStr_errs]

theorem formatCStringTruncate_errs (o : OS) (v : Value) (n : Int) :
    (formatCStringTruncate o v n).1.errs = o.errs := by
  cases v <;> rfl

theorem formatValueBasic_errs (o : OS) (spec : List Char) (v : Value) :
    (formatValueBasic o spec v).errs =
      o.errs ++ (streamStateFromFormat o.state spec).2.2 := by
  simp only [formatValueBasic]
  split
  · simp [formatValue_errs]
  · repeat' split
    all_goals simp [osWrite_errs, osInsertStr_errs]

theorem streamStateFromFormat_errs (st : StreamState) (spec : List Char) :
    ∀ e ∈ (streamStateFromFormat st spec).2.2,
      e = errVarWidth ∨ e = errVarPrec ∨ e = errPercentN := by
  intro e he
  simp only [streamStateFromFormat] at he
  rw [List.mem_append, List.mem_append] at he
  rcases he with (he | he) | he
  · repeat' split at he
    all_goals simp_all
  · repeat' split at he
    all_goals simp_all
  · repeat' split at he
    all_goals simp_all

theorem ffse_errs_ne (l : List Char) (h : l ≠ []) :
    (findFormatSpecEnd l).2.2 = (findFormatSpecEndLoop l).2.2 := by
  have : l.isEmpty = false := by
    cases l with
    | nil => exact absurd rfl h
    | cons c rest => rfl
  simp [findFormatSpecEnd, this]

theorem formatImpl_nil (o : OS) (fmt : List Char) :
    formatImpl [] o fmt =
      (if (printFormatStringLiteral fmt).2.isEmpty
        then osWrite o (printFormatStringLiteral fmt).1
        else { osWrite o (printFormatStringLiteral fmt).1 with
          errs := (osWrite o (printFormatStringLiteral fmt).1).errs ++ [errTooMany] }) := rfl

theorem formatImpl_cons (o : OS) (fmt : List Char) (v : Value) (vs : List Value) :
    formatImpl (v :: vs) o fmt =
      formatImpl vs
        (formatValueBasic
          { osWrite o (printFormatStringLiteral fmt).1 with
            errs := (osWrite o (printFormatStringLiteral fmt).1).errs ++
              (findFormatSpecEnd (printFormatStringLiteral fmt).2).2.2 }
          (findFormatSpecEnd (printFormatStringLiteral fmt).2).1 v)
        ((findFormatSpecEnd (printFormatStringLiteral fmt).2).2.1) := rfl

theorem formatImpl_errs_mono (args : List Value) :
    ∀ (o : OS) (fmt : List Char), ∃ l, (formatImpl args o fmt).errs = o.errs ++ l := by
  induction args with
  | nil =>
      intro o fmt
      rw [formatImpl_nil]
      split
      · exact ⟨[], by simp [osWrite_errs]⟩
      · exact ⟨[errTooMany], by simp [osWrite_errs]⟩
  | cons v vs ih =>
      intro o fmt
      rw [formatImpl_cons]
      obtain ⟨l, hl⟩ := ih
        (formatValueBasic
          { osWrite o (printFormatStringLiteral fmt).1 with
            errs := (osWrite o (printFormatStringLiteral fmt).1).errs ++
              (findFormatSpecEnd (printFormatStringLiteral fmt).2).2.2 }
          (findFormatSpecEnd (printFormatStringLiteral fmt).2).1 v)
        ((findFormatSpecEnd (printFormatStringLiteral fmt).2).2.1)
      refine ⟨(findFormatSpecEnd (printFormatStringLiteral fmt).2).2.2 ++
        ((streamStateFromFormat (osWrite o (printFormatStringLiteral fmt).1).state
            (findFormatSpecEnd (printFormatStringLiteral fmt).2).1).2.2 ++ l), ?_⟩
      rw [hl, formatValueBasic_errs]
      simp [osWrite_errs]

theorem count_not_enough_specs (args : List Value) :
    ∀ (o : OS) (fmt : List Char), args.length < specCount fmt →
      errTooMany ∈ (formatImpl args o fmt).errs := by
  induction args with
  | nil =>
      intro o fmt h
      have hrem : (printFormatStringLiteral fmt).2.isEmpty = false := by
        by_cases hr : (printFormatStringLiteral fmt).2.isEmpty = true
        · rw [specCount_eq, hr] at h; simp at h
        · simpa using hr
      rw [formatImpl_nil, hrem]
      simp
  | cons v vs ih =>
      intro o fmt h
      have hrem : (printFormatStringLiteral fmt).2.isEmpty = false := by
        by_cases hr : (printFormatStringLiteral fmt).2.isEmpty = true
        · rw [specCount_eq, hr] at h; simp at h
        · simpa using hr
      have hcount : specCount fmt =
          1 + specCount ((findFormatSpecEnd (printFormatStringLiteral fmt).2).2.1) := by
        rw [specCount_eq, hrem]; simp
      rw [formatImpl_cons]
      exact ih _ _ (by simp only [List.length_cons] at h; rw [hcount] at h; omega)

theorem count_too_many_args (args : List Value) :
    ∀ (o : OS) (fmt : List Char), specCount fmt < args.length →
      errNotEnough ∈ (formatImpl args o fmt).errs := by
  induction args with
  | nil => intro o fmt h; simp at h
  | cons v vs ih =>
      intro o fmt h
      by_cases hr : (printFormatStringLiteral fmt).2.isEmpty = true
      · -- the template is exhausted: findFormatSpecEnd raises errNotEnough
        have hrem : (printFormatStringLiteral fmt).2 = [] := by
          cases hq : (printFormatStringLiteral fmt).2 with
          | nil => rfl
          | cons c rest => rw [hq] at hr; simp at hr
        rw [formatImpl_cons]
        obtain ⟨l, hl⟩ := formatImpl_errs_mono vs _ _
        rw [hl, formatValueBasic_errs]
        rw [hrem]
        simp [osWrite_errs, findFormatSpecEnd, errNotEnough]
      · -- a spec remains: consume it and recurse
        have hrem : (printFormatStringLiteral fmt).2.isEmpty = false := by simpa using hr
        have hcount : specCount fmt =
            1 + specCount ((findFormatSpecEnd (printFormatStringLiteral fmt).2).2.1) := by
          rw [specCount_eq, hrem]; simp
        rw [formatImpl_cons]
        exact ih _ _ (by simp only [List.length_cons] at h; rw [hcount] at h; omega)

theorem count_match_no_mismatch_err (args : List Value) :
    ∀ (o : OS) (fmt : List Char), specCount fmt = args.length →
      ∀ e, e ∈ (formatImpl args o fmt).errs →
        e ∈ o.errs ∨ e = errUnterminated ∨ e = errVarWidth ∨ e = errVarPrec ∨ e = errPercentN := by
  induction args with
  | nil =>
      intro o fmt h e he
      have hrem : (printFormatStringLiteral fmt).2.isEmpty = true := by
        by_cases hr : (printFormatStringLiteral fmt).2.isEmpty = true
        · exact hr
        · have hrf : (printFormatStringLiteral fmt).2.isEmpty = false := by simpa using hr
          rw [specCount_eq, hrf] at h; simp at h
      rw [formatImpl_nil, hrem] at he
      simp only [if_true] at he
      exact Or.inl he
  | cons v vs ih =>
      intro o fmt h e he
      have hrem : (printFormatStringLiteral fmt).2.isEmpty = false := by
        by_cases hr : (printFormatStringLiteral fmt).2.isEmpty = true
        · rw [specCount_eq, hr] at h; simp at h
        · simpa using hr
      have hne : (printFormatStringLiteral fmt).2 ≠ [] := by
        intro hq; rw [hq] at hrem; simp at hrem
      have hcount : specCount ((findFormatSpecEnd (printFormatStringLiteral fmt).2).2.1) =
          vs.length := by
        rw [specCount_eq, hrem] at h; simp at h; omega
      rw [formatImpl_cons] at he
      rcases ih _ _ hcount e he with hin | hother
      · rw [formatValueBasic_errs] at hin
        rcases List.mem_append.mp hin with hin2 | hss
        · rcases List.mem_append.mp hin2 with hin3 | hff
          · exact Or.inl hin3
          · rw [ffse_errs_ne _ hne] at hff
            rcases ffseLoop_errs (printFormatStringLiteral fmt).2 with hl | hl <;> rw [hl] at hff
            · simp at hff
            · simp at hff; exact Or.inr (Or.inl hff)
        · rcases streamStateFromFormat_errs _ _ e hss with h1 | h1 | h1
          · exact Or.inr (Or.inr (Or.inl h1))
          · exact Or.inr (Or.inr (Or.inr (Or.inl h1)))
          · exact Or.inr (Or.inr (Or.inr (Or.inr h1)))
      · exact Or.inr hother

theorem ffse_of_ne (l : List Char) (h : l ≠ []) :
    findFormatSpecEnd l = findFormatSpecEndLoop l := by
  have : l.isEmpty = false := by
    cases l with
    | nil => exact absurd rfl h
    | cons c rest => rfl
  simp [findFormatSpecEnd, this]

/-! ## Character-class and shape lemmas for the directive interpreter -/

theorem alpha_not_digit (c : Char) (h : isAlphaChar c = true) : isDigitChar c = false := by
  by_cases hd : isDigitChar c = true
  · exfalso
    simp only [isDigitChar, Bool.and_eq_true, decide_eq_true_eq] at hd
    simp only [isAlphaChar, Bool.or_eq_true, Bool.and_eq_true, decide_eq_true_eq] at h
    omega
  · simpa using hd

theorem alpha_ne_star (c : Char) (h : isAlphaChar c = true) : c ≠ '*' := by
  intro he; subst he; revert h; decide

theorem alpha_ne_dot (c : Char) (h : isAlphaChar c = true) : c ≠ '.' := by
  intro he; subst he; revert h; decide

theorem alpha_ne_dash (c : Char) (h : isAlphaChar c = true) : c ≠ '-' := by
  intro he; subst he; revert h; decide

theorem alpha_not_flag (c : Char) (h : isAlphaChar c = true) : isFlagChar c = false := by
  by_cases hf : isFlagChar c = true
  · simp only [isFlagChar, Bool.or_eq_true, decide_eq_true_eq] at hf
    rcases hf with ((((hf | hf) | hf) | hf) | hf) <;> subst hf <;> revert h <;> decide
  · simpa using hf

theorem digit_ne_star (c : Char) (h : isDigitChar c = true) : c ≠ '*' := by
  intro he; subst he; revert h; decide

theorem chr_cons (c : Char) (l : List Char) : chr (c :: l) = c := rfl

/-- `streamStateFromFormat` on a spec of the shape
`flags ++ '.' ++ digits ++ [conversion letter]`: no width is parsed, the
precision is set from the digit string, and the conversion switch and
integer fixup act on the result of the flag fold. -/
theorem streamState_flags_prec_shape (st : StreamState) (fl ds : List Char) (t : Char)
    (hfl : ∀ c ∈ fl, isFlagChar c = true)
    (hds : ∀ c ∈ ds, isDigitChar c = true)
    (ht : isConvTermChar t = true) :
    streamStateFromFormat st (fl ++ '.' :: (ds ++ [t])) =
      (let P := List.foldl applyFlag (resetState st, noExtra) fl
       let st3 : StreamState := { P.1 with precision := (digitsToNat ds : Int) }
       let cs := convSwitch st3 P.2 true t
       let st5 : StreamState :=
         if cs.2.2 = true then
           { cs.1 with width := cs.1.precision, fill := '0', flags := { cs.1.flags with adjust := Adjust.internal } }
         else cs.1
       (st5, cs.2.1, if t = 'n' then [errPercentN] else [])) := by
  have htA : isAlphaChar t = true := by
    simp only [isConvTermChar, Bool.and_eq_true] at ht; exact ht.1
  have htM : isLengthMod t = false := by
    simp only [isConvTermChar, Bool.and_eq_true, Bool.not_eq_true'] at ht; exact ht.2
  have hdot : isFlagChar (chr ('.' :: (ds ++ [t]))) = false := by rw [chr_cons]; decide
  have hq : (if isDigitChar (chr (ds ++ [t])) = true then parseIntAndAdvance (ds ++ [t])
      else if chr (ds ++ [t]) = '-' then (0, (parseIntAndAdvance (ds ++ [t]).tail).2)
      else (0, ds ++ [t])) = (digitsToNat ds, [t]) := by
    match ds with
    | [] =>
        have h1 : isDigitChar (chr ([] ++ [t])) = false := by
          rw [List.nil_append, chr_cons]; exact alpha_not_digit t htA
        have h2 : (chr ([] ++ [t]) = '-') = False := by
          rw [List.nil_append, chr_cons]; simp [alpha_ne_dash t htA]
        simp only [h1, h2, Bool.false_eq_true, if_false]
        simp [digitsToNat]
    | d :: ds' =>
        have h1 : isDigitChar (chr ((d :: ds') ++ [t])) = true := by
          rw [List.cons_append, chr_cons]; exact hds d (List.mem_cons_self d ds')
        simp only [h1, if_true]
        exact parseIntAndAdvance_digits (d :: ds') hds [t]
          (by rw [chr_cons]; exact alpha_not_digit t htA)
  have hstar2 : (chr (ds ++ [t]) = '*') = False := by
    match ds with
    | [] => rw [List.nil_append, chr_cons]; simp [alpha_ne_star t htA]
    | d :: ds' =>
        rw [List.cons_append, chr_cons]
        simp [digit_ne_star d (hds d (List.mem_cons_self d ds'))]
  have hskip : skipLengthMods [t] = [t] := by simp [skipLengthMods, htM]
  have e1 : isDigitChar (chr ('.' :: (ds ++ [t]))) = false := by rw [chr_cons]; decide
  have e2 : (chr ('.' :: (ds ++ [t])) = '*') = False := by rw [chr_cons]; simp
  have e3 : (chr ('.' :: (ds ++ [t])) = '.') = True := by rw [chr_cons]; simp
  have g1 : isDigitChar ('.' : Char) = false := by decide
  have g2 : (('.' : Char) = '*') = False := by simp
  have g3 : (('.' : Char) = '.') = True := by simp
  simp only [g1, g2, g3, streamStateFromFormat,
    parseFlagsLoop_flags (resetState st, noExtra) fl hfl _ hdot,
    e1, e2, e3, Bool.false_eq_true, if_false, if_true, List.tail_cons, hq, hstar2,
    hskip, chr_cons, List.isEmpty_cons, eq_self_iff_true, and_true, true_and,
    Bool.not_eq_true, not_false_iff]
  rfl

/-- `streamStateFromFormat` on a spec of the shape
`flags ++ [conversion letter]`: no width and no precision are parsed and
the conversion switch acts on the result of the flag fold (with no integer
fixup, since no precision was given). -/
theorem streamState_flags_only_shape (st : StreamState) (fl : List Char) (t : Char)
    (hfl : ∀ c ∈ fl, isFlagChar c = true)
    (ht : isConvTermChar t = true) :
    streamStateFromFormat st (fl ++ [t]) =
      (let P := List.foldl applyFlag (resetState st, noExtra) fl
       let cs := convSwitch P.1 P.2 false t
       (cs.1, cs.2.1, if t = 'n' then [errPercentN] else [])) := by
  have htA : isAlphaChar t = true := by
    simp only [isConvTermChar, Bool.and_eq_true] at ht; exact ht.1
  have htM : isLengthMod t = false := by
    simp only [isConvTermChar, Bool.and_eq_true, Bool.not_eq_true'] at ht; exact ht.2
  have hflag : isFlagChar (chr [t]) = false := by rw [chr_cons]; exact alpha_not_flag t htA
  have e1 : isDigitChar (chr [t]) = false := by rw [chr_cons]; exact alpha_not_digit t htA
  have e2 : (chr [t] = '*') = False := by rw [chr_cons]; simp [alpha_ne_star t htA]
  have e3 : (chr [t] = '.') = False := by rw [chr_cons]; simp [alpha_ne_dot t htA]
  have hskip : skipLengthMods [t] = [t] := by simp [skipLengthMods, htM]
  have f1 : isDigitChar t = false := alpha_not_digit t htA
  have f2 : (t = '*') = False := by simp [alpha_ne_star t htA]
  have f3 : (t = '.') = False := by simp [alpha_ne_dot t htA]
  simp only [streamStateFromFormat,
    parseFlagsLoop_flags (resetState st, noExtra) fl hfl _ hflag,
    e1, e2, e3, f1, f2, f3, Bool.false_eq_true, if_false, List.tail_cons, hskip, chr_cons,
    List.isEmpty_cons, eq_self_iff_true, and_true, true_and, false_and, and_false,
    Bool.not_eq_true, not_false_iff]
  rfl

theorem alpha_ne_pct (c : Char) (h : isAlphaChar c = true) : c ≠ '%' := by
  intro he; subst he; revert h; decide

theorem padText_zero (st : StreamState) (t : List Char) (h : st.width = 0) :
    padText st t = t := by
  simp [padText, h]

theorem padNumeric_zero (st : StreamState) (sign digs : List Char) (h : st.width = 0) :
    padNumeric st sign digs = sign ++ digs := by
  simp [padNumeric, h]

/-! ## The claims -/

/-- C1: for every value rendered through `formatValueBasic`, the output
stream's width, precision, format flags and fill character after the call
equal their values before the call, on every exit path — including the
paths on which the error hook is invoked (the spec may contain `'*'` or
`'%n'`, or be arbitrary) — so no formatting state leaks between rendered
values or across calls. -/
theorem formatValueBasic_restores_stream_state (o : OS) (spec : List Char) (v : Value) :
    (formatValueBasic o spec v).state.width = o.state.width ∧
    (formatValueBasic o spec v).state.precision = o.state.precision ∧
    (formatValueBasic o spec v).state.flags = o.state.flags ∧
    (formatValueBasic o spec v).state.fill = o.state.fill := by
  simp [formatValueBasic]

/-- C2 (counterexample to the claim as stated): with more conversion specs
than arguments (`"%d%d"` with one argument) the reason reported is
`Too many conversion specifiers in format string` — not one stating "not
enough conversion specifiers"; with more arguments than specs (`"%d"` with
two arguments) the reasons are `Not enough conversion specifiers ...` and
`Conversion spec incorrectly terminated ...` — not one stating "too many
arguments".  The claim has the two diagnostic messages swapped. -/
theorem format_count_claim_counterexample :
    (tfmFormat ['%', 'd', '%', 'd'] [Value.vInt 5]).errs = [errTooMany] ∧
    (tfmFormat ['%', 'd'] [Value.vInt 5, Value.vInt 6]).errs =
      [errNotEnough, errUnterminated] ∧
    errTooMany = "tinyformat: Too many conversion specifiers in format string" ∧
    errNotEnough = "tinyformat: Not enough conversion specifiers in format string" := by
  refine ⟨?_, ?_, rfl, rfl⟩ <;> rfl

/-- C2 (amended): if the template still contains a conversion spec when
all arguments have been consumed, `format` reports
`Too many conversion specifiers in format string`; if arguments remain
when the template contains no further spec, it reports
`Not enough conversion specifiers in format string`; and when spec count
equals argument count no count-mismatch reason is ever reported. -/
theorem format_argument_count_errors (args : List Value) (o : OS) (fmt : List Char) :
    (args.length < specCount fmt → errTooMany ∈ (formatImpl args o fmt).errs) ∧
    (specCount fmt < args.length → errNotEnough ∈ (formatImpl args o fmt).errs) ∧
    (specCount fmt = args.length → o.errs = [] →
      errTooMany ∉ (formatImpl args o fmt).errs ∧
      errNotEnough ∉ (formatImpl args o fmt).errs) := by
  refine ⟨count_not_enough_specs args o fmt, count_too_many_args args o fmt, ?_⟩
  intro hc h0
  constructor <;> intro hmem <;>
    rcases count_match_no_mismatch_err args o fmt hc _ hmem with h | h | h | h | h <;>
      first
        | (rw [h0] at h; simp at h)
        | exact absurd h (by decide)

theorem format_argument_count_errors_witness :
    errTooMany ∈ (tfmFormat ['%', 'd', '%', 'd'] [Value.vInt 5]).errs ∧
    errNotEnough ∈ (tfmFormat ['%', 'd'] [Value.vInt 5, Value.vInt 6]).errs ∧
    (errTooMany ∉ (tfmFormat ['%', 'd'] [Value.vInt 5]).errs ∧
      errNotEnough ∉ (tfmFormat ['%', 'd'] [Value.vInt 5]).errs) :=
  ⟨(format_argument_count_errors [Value.vInt 5] ⟨defaultStreamState, [], []⟩
      ['%', 'd', '%', 'd']).1 (by decide),
   (format_argument_count_errors [Value.vInt 5, Value.vInt 6] ⟨defaultStreamState, [], []⟩
      ['%', 'd']).2.1 (by decide),
   (format_argument_count_errors [Value.vInt 5] ⟨defaultStreamState, [], []⟩
      ['%', 'd']).2.2 (by decide) rfl⟩

/-- C3: a template with no `%` is written verbatim with no error; a `%%`
pair in literal text collapses to one literal `%` with scanning continuing
past it; `"100%%"` renders as `"100%"` and `"%%%%"` as `"%%"`. -/
theorem format_literal_and_escape :
    (∀ t : List Char, (∀ c ∈ t, c ≠ '%') →
      (tfmFormat t []).buf = t ∧ (tfmFormat t []).errs = []) ∧
    (∀ l1 l2 : List Char, (∀ c ∈ l1, c ≠ '%') →
      printFormatStringLiteral (l1 ++ '%' :: '%' :: l2) =
        (l1 ++ '%' :: (printFormatStringLiteral l2).1, (printFormatStringLiteral l2).2)) ∧
    (tfmFormat "100%%".toList []).buf = "100%".toList ∧
    (tfmFormat "100%%".toList []).errs = [] ∧
    (tfmFormat "%%%%".toList []).buf = "%%".toList ∧
    (tfmFormat "%%%%".toList []).errs = [] := by
  refine ⟨?_, printLit_collapse, by rfl, by rfl, by rfl, by rfl⟩
  intro t ht
  have h1 := printLit_no_pct t ht
  unfold tfmFormat
  rw [formatImpl_nil, h1]
  simp [osWrite]

theorem format_literal_and_escape_witness :
    ((tfmFormat "abc".toList []).buf = "abc".toList ∧ (tfmFormat "abc".toList []).errs = []) ∧
    printFormatStringLiteral ("100".toList ++ '%' :: '%' :: []) =
      ("100".toList ++ '%' :: (printFormatStringLiteral []).1, (printFormatStringLiteral []).2) :=
  ⟨format_literal_and_escape.1 "abc".toList (by decide),
   format_literal_and_escape.2.1 "100".toList [] (by decide)⟩

/-- C4: scanning from the character after `%`, the terminator skips
length-modifier characters, terminates the spec at the first letter
outside that set (inclusive of that letter), reports a fatal error when
the end of the template is reached before such a letter, and reports a
distinct first error (`errNotEnough`, the spec's "missing conversion
after `%`") when the spec is empty — at a `%` ending the template. -/
theorem findFormatSpecEnd_terminator_behavior :
    (∀ (pre : List Char) (c : Char) (rest : List Char),
      (∀ d ∈ pre, isConvTermChar d = false) → isConvTermChar c = true →
      findFormatSpecEnd (pre ++ c :: rest) = (pre ++ [c], rest, [])) ∧
    (∀ fmt : List Char, fmt ≠ [] → (∀ d ∈ fmt, isConvTermChar d = false) →
      findFormatSpecEnd fmt = (fmt, [], [errUnterminated])) ∧
    findFormatSpecEnd [] = ([], [], [errNotEnough, errUnterminated]) ∧
    errNotEnough ≠ errUnterminated := by
  refine ⟨?_, ?_, rfl, by decide⟩
  · intro pre c rest hpre hc
    have hne : pre ++ c :: rest ≠ [] := by simp
    rw [ffse_of_ne _ hne, ffseLoop_skip pre c rest hpre hc]
  · intro fmt hne hall
    rw [ffse_of_ne _ hne, ffseLoop_unterminated fmt hall]

theorem findFormatSpecEnd_terminator_behavior_witness :
    findFormatSpecEnd (['l', '5'] ++ 'd' :: ['x']) = (['l', '5'] ++ ['d'], ['x'], []) ∧
    findFormatSpecEnd ['l', '5'] = (['l', '5'], [], [errUnterminated]) :=
  ⟨findFormatSpecEnd_terminator_behavior.1 ['l', '5'] 'd' ['x'] (by decide) (by decide),
   findFormatSpecEnd_terminator_behavior.2.1 ['l', '5'] (by decide) (by decide)⟩

/-- C5: if the conversion character denotes an integer conversion, a
precision was given in the directive, and no explicit width was given
(syntactically: the directive is flags, then `.` and the precision digits,
then the conversion letter), the resulting formatting context has
width = precision, internal alignment and zero fill, with no error; thus
`format(sink, "%.4d", 7)` produces `"0007"`. -/
theorem integer_precision_fixup :
    (∀ (st : StreamState) (fl ds : List Char) (t : Char),
      (∀ c ∈ fl, isFlagChar c = true) →
      (∀ c ∈ ds, isDigitChar c = true) →
      t = 'u' ∨ t = 'd' ∨ t = 'i' ∨ t = 'o' ∨ t = 'x' ∨ t = 'X' ∨ t = 'p' →
      (streamStateFromFormat st (fl ++ '.' :: (ds ++ [t]))).1.width = (digitsToNat ds : Int) ∧
      (streamStateFromFormat st (fl ++ '.' :: (ds ++ [t]))).1.flags.adjust = Adjust.internal ∧
      (streamStateFromFormat st (fl ++ '.' :: (ds ++ [t]))).1.fill = '0' ∧
      (streamStateFromFormat st (fl ++ '.' :: (ds ++ [t]))).2.2 = []) ∧
    (tfmFormat "%.4d".toList [Value.vInt 7]).buf = "0007".toList ∧
    (tfmFormat "%.4d".toList [Value.vInt 7]).errs = [] := by
  refine ⟨?_, by rfl, by rfl⟩
  intro st fl ds t hfl hds ht
  rcases ht with ht | ht | ht | ht | ht | ht | ht <;> subst ht <;>
    rw [streamState_flags_prec_shape st fl ds _ hfl hds (by decide)] <;>
      simp [convSwitch]

theorem integer_precision_fixup_witness :
    (streamStateFromFormat defaultStreamState ([] ++ '.' :: (['4'] ++ ['d']))).1.width = (digitsToNat ['4'] : Int) ∧
    (streamStateFromFormat defaultStreamState ([] ++ '.' :: (['4'] ++ ['d']))).1.flags.adjust = Adjust.internal ∧
    (streamStateFromFormat defaultStreamState ([] ++ '.' :: (['4'] ++ ['d']))).1.fill = '0' ∧
    (streamStateFromFormat defaultStreamState ([] ++ '.' :: (['4'] ++ ['d']))).2.2 = [] :=
  integer_precision_fixup.1 defaultStreamState [] ['4'] 'd' (by decide) (by decide)
    (Or.inr (Or.inl rfl))

theorem write_or_insert_buf (o1 : OS) (result : List Char) (N : Nat)
    (hw : o1.state.width = 0) :
    ∃ t : List Char,
      (if ((result.length : Int) > (N : Int)) then osWrite o1 (result.take ((N : Int)).toNat)
        else osInsertStr o1 result).buf = o1.buf ++ t ∧ t.length ≤ N := by
  by_cases hc : ((result.length : Int) > (N : Int))
  · rw [if_pos hc]
    refine ⟨result.take ((N : Int)).toNat, rfl, ?_⟩
    simp [List.length_take]
  · rw [if_neg hc]
    refine ⟨result, ?_, ?_⟩
    · simp only [osInsertStr]
      rw [padText_zero _ _ hw]
    · simp only [not_lt] at hc
      exact_mod_cast hc

set_option maxHeartbeats 1000000 in
theorem c6_general (st : StreamState) (buf : List Char) (errs : List String)
    (ds : List Char) (v : Value) (hds : ∀ c ∈ ds, isDigitChar c = true) :
    ∃ t : List Char,
      (formatValueBasic ⟨st, buf, errs⟩ ('.' :: (ds ++ ['s'])) v).buf = buf ++ t ∧
      t.length ≤ digitsToNat ds := by
  have h := streamState_flags_prec_shape st [] ds 's' (by simp) hds (by decide)
  simp [convSwitch, noExtra, resetState] at h
  simp only [formatValueBasic, h]
  have hex : ((⟨true, false⟩ : Extra) = noExtra) = False := by simp [noExtra]
  simp only [hex, Bool.false_eq_true, if_false, if_true, true_and, List.append_nil,
    List.nil_append]
  have hconv : (('.' :: (ds ++ ['s'])).getLast?.getD nulChar) = 's' := by
    rw [show '.' :: (ds ++ ['s']) = ('.' :: ds) ++ ['s'] from rfl, List.getLast?_concat]
    rfl
  rw [hconv]
  cases v with
  | vStr s =>
      simp only [formatCStringTruncate, osWrite, List.nil_append]
      exact write_or_insert_buf _ _ _ rfl
  | vInt i =>
      simp only [formatCStringTruncate]
      simp only [Bool.false_eq_true, if_false]
      simp only [formatValue]
      have hsc : (('s' : Char) = 'c') = False := by simp
      simp only [hsc, if_false, osInsertInt]
      rw [padNumeric_zero _ _ _ rfl]
      exact write_or_insert_buf _ _ _ rfl
  | vChar c =>
      simp only [formatCStringTruncate]
      simp only [Bool.false_eq_true, if_false]
      simp only [formatValue]
      have hsI : (('s' : Char) = 'u' ∨ ('s' : Char) = 'd' ∨ ('s' : Char) = 'i' ∨
          ('s' : Char) = 'o' ∨ ('s' : Char) = 'X' ∨ ('s' : Char) = 'x') = False := by simp
      simp only [hsI, if_false, osInsertChar]
      rw [padText_zero _ _ rfl]
      exact write_or_insert_buf _ _ _ rfl

theorem digit_ne0_not_flag (c : Char) (h : isDigitChar c = true) (h0 : c ≠ '0') :
    isFlagChar c = false := by
  by_cases hf : isFlagChar c = true
  · simp only [isFlagChar, Bool.or_eq_true, decide_eq_true_eq] at hf
    rcases hf with ((((hf | hf) | hf) | hf) | hf) <;> subst hf
    · revert h; decide
    · exact absurd rfl h0
    · revert h; decide
    · revert h; decide
    · revert h; decide
  · simpa using hf

theorem padText_length (st : StreamState) (t : List Char) :
    (padText st t).length = max t.length st.width.toNat := by
  by_cases h1 : t.length < st.width.toNat
  · by_cases h2 : st.flags.adjust = Adjust.left
    · simp [padText, h1, h2]
      omega
    · simp [padText, h1, h2]
      omega
  · simp [padText, h1]
    omega

theorem write_or_insert_buf_w (o1 : OS) (result : List Char) (N : Nat) :
    ∃ t : List Char,
      (if ((result.length : Int) > (N : Int)) then osWrite o1 (result.take ((N : Int)).toNat)
        else osInsertStr o1 result).buf = o1.buf ++ t ∧
      t.length ≤ max N o1.state.width.toNat := by
  by_cases hc : ((result.length : Int) > (N : Int))
  · rw [if_pos hc]
    refine ⟨result.take ((N : Int)).toNat, rfl, ?_⟩
    have h2 : (result.take ((N : Int)).toNat).length ≤ N := by
      simp [List.length_take]
    omega
  · rw [if_neg hc]
    refine ⟨padText o1.state result, rfl, ?_⟩
    rw [padText_length]
    have hr : result.length ≤ N := by
      simp only [not_lt] at hc
      exact_mod_cast hc
    omega

theorem parseFlagsLoop_stop (p : StreamState × Extra) (c : Char) (rest : List Char)
    (h : isFlagChar c = false) : parseFlagsLoop p (c :: rest) = (p, c :: rest) := by
  simp [parseFlagsLoop, h]

set_option maxHeartbeats 1000000 in
/-- `streamStateFromFormat` on a spec of the shape
`width-digits ++ '.' ++ precision-digits ++ ['s']` (the leading width
digit nonzero, as it must be — a leading `'0'` is taken by the flag
loop): both the width and the precision are set, and the `'s'` conversion
with a precision set enables truncate-to-precision. -/
theorem streamState_width_prec_s_shape (st : StreamState) (w : Char) (wds' ds : List Char)
    (hw : ∀ c ∈ w :: wds', isDigitChar c = true) (hw0 : w ≠ '0')
    (hds : ∀ c ∈ ds, isDigitChar c = true) :
    streamStateFromFormat st (w :: (wds' ++ '.' :: (ds ++ ['s']))) =
      ({ resetState st with width := (digitsToNat (w :: wds') : Int), precision := (digitsToNat ds : Int) },
        ⟨true, false⟩, []) := by
  have hwd : isDigitChar w = true := hw w (List.mem_cons_self w wds')
  have hflag : isFlagChar w = false := digit_ne0_not_flag w hwd hw0
  have hwparse : parseIntAndAdvance (w :: (wds' ++ '.' :: (ds ++ ['s']))) =
      (digitsToNat (w :: wds'), '.' :: (ds ++ ['s'])) := by
    have := parseIntAndAdvance_digits (w :: wds') hw ('.' :: (ds ++ ['s']))
      (by rw [chr_cons]; decide)
    simpa [List.cons_append] using this
  have hq : (if isDigitChar (chr (ds ++ ['s'])) = true then parseIntAndAdvance (ds ++ ['s'])
      else if chr (ds ++ ['s']) = '-' then (0, (parseIntAndAdvance (ds ++ ['s']).tail).2)
      else (0, ds ++ ['s'])) = (digitsToNat ds, ['s']) := by
    match ds with
    | [] =>
        have h1 : isDigitChar (chr ([] ++ ['s'])) = false := by decide
        have h2 : (chr ([] ++ ['s']) = '-') = False := by decide
        simp only [h1, h2, Bool.false_eq_true, if_false]
        simp [digitsToNat]
    | d :: ds' =>
        have h1 : isDigitChar (chr ((d :: ds') ++ ['s'])) = true := by
          rw [List.cons_append, chr_cons]; exact hds d (List.mem_cons_self d ds')
        simp only [h1, if_true]
        exact parseIntAndAdvance_digits (d :: ds') hds ['s'] (by rw [chr_cons]; decide)
  have hstar2 : (chr (ds ++ ['s']) = '*') = False := by
    match ds with
    | [] => decide
    | d :: ds' =>
        rw [List.cons_append, chr_cons]
        simp [digit_ne_star d (hds d (List.mem_cons_self d ds'))]
  have hskip : skipLengthMods ['s'] = ['s'] := by decide
  have g1 : isDigitChar ('.' : Char) = false := by decide
  have g2 : (('.' : Char) = '*') = False := by simp
  have g3 : (('.' : Char) = '.') = True := by simp
  simp only [g1, g2, g3, streamStateFromFormat,
    parseFlagsLoop_stop (resetState st, noExtra) w (wds' ++ '.' :: (ds ++ ['s'])) hflag,
    hwd, if_true, hwparse, chr_cons, Bool.false_eq_true, if_false, List.tail_cons,
    hq, hstar2, hskip, List.isEmpty_cons, eq_self_iff_true, and_true, true_and,
    Bool.not_eq_true, not_false_iff]
  simp [convSwitch, noExtra]

set_option maxHeartbeats 2000000 in
theorem c6_width_general (st : StreamState) (buf : List Char) (errs : List String)
    (w : Char) (wds' ds : List Char) (v : Value)
    (hw : ∀ c ∈ w :: wds', isDigitChar c = true) (hw0 : w ≠ '0')
    (hds : ∀ c ∈ ds, isDigitChar c = true) :
    ∃ t : List Char,
      (formatValueBasic ⟨st, buf, errs⟩ (w :: (wds' ++ '.' :: (ds ++ ['s']))) v).buf = buf ++ t ∧
      t.length ≤ max (digitsToNat ds) (digitsToNat (w :: wds')) := by
  have h := streamState_width_prec_s_shape st w wds' ds hw hw0 hds
  unfold formatValueBasic
  rw [h]
  have hex : ((⟨true, false⟩ : Extra) = noExtra) = False := by simp [noExtra]
  simp only [hex, Bool.false_eq_true, if_false, if_true, true_and, List.append_nil,
    List.nil_append]
  have hconv : ((w :: (wds' ++ '.' :: (ds ++ ['s']))).getLast?.getD nulChar) = 's' := by
    rw [show w :: (wds' ++ '.' :: (ds ++ ['s'])) = ((w :: wds') ++ '.' :: ds) ++ ['s'] by simp,
      List.getLast?_concat]
    rfl
  rw [hconv]
  cases v with
  | vStr s =>
      simp only [formatCStringTruncate, osWrite, List.nil_append]
      exact write_or_insert_buf_w _ _ _
  | vInt i =>
      simp only [formatCStringTruncate]
      simp only [Bool.false_eq_true, if_false]
      simp only [formatValue]
      have hsc : (('s' : Char) = 'c') = False := by simp
      simp only [hsc, if_false, osInsertInt]
      exact write_or_insert_buf_w _ _ _
  | vChar c =>
      simp only [formatCStringTruncate]
      simp only [Bool.false_eq_true, if_false]
      simp only [formatValue]
      have hsI : (('s' : Char) = 'u' ∨ ('s' : Char) = 'd' ∨ ('s' : Char) = 'i' ∨
          ('s' : Char) = 'o' ∨ ('s' : Char) = 'X' ∨ ('s' : Char) = 'x') = False := by simp
      simp only [hsI, if_false, osInsertChar]
      exact write_or_insert_buf_w _ _ _


/-- C6 (amended): for an `s` conversion with precision N, the value's
rendering is cut to at most N characters, but the field width can pad the
written text back out: a C-string argument has at most `min(N, strlen)`
characters read and written (unformatted); for a width-free `%.Ns`
directive the text appended to the buffer is at most N characters; for a
`%W.Ns` directive with width W it is at most `max(N, W)` characters,
since `out << result` pads the truncated rendering to the field width.
`format(sink, "%.3s", "hello")` produces `"hel"`, `"%.3s"` of the int
12345 produces `"123"`, and `format(sink, "%7.3s", "hello")` produces
`"    hel"`. -/
theorem string_precision_truncation :
    (∀ (o : OS) (s : List Char) (n : Int),
      (formatCStringTruncate o (Value.vStr s) n).2 = true ∧
      (formatCStringTruncate o (Value.vStr s) n).1.buf =
        o.buf ++ s.take (min n.toNat s.length)) ∧
    (∀ (st : StreamState) (buf : List Char) (errs : List String) (ds : List Char) (v : Value),
      (∀ c ∈ ds, isDigitChar c = true) →
      ∃ t : List Char,
        (formatValueBasic ⟨st, buf, errs⟩ ('.' :: (ds ++ ['s'])) v).buf = buf ++ t ∧
        t.length ≤ digitsToNat ds) ∧
    (∀ (st : StreamState) (buf : List Char) (errs : List String)
        (w : Char) (wds' ds : List Char) (v : Value),
      (∀ c ∈ w :: wds', isDigitChar c = true) → w ≠ '0' →
      (∀ c ∈ ds, isDigitChar c = true) →
      ∃ t : List Char,
        (formatValueBasic ⟨st, buf, errs⟩ (w :: (wds' ++ '.' :: (ds ++ ['s']))) v).buf = buf ++ t ∧
        t.length ≤ max (digitsToNat ds) (digitsToNat (w :: wds'))) ∧
    (tfmFormat "%.3s".toList [Value.vStr "hello".toList]).buf = "hel".toList ∧
    (tfmFormat "%.3s".toList [Value.vStr "hello".toList]).errs = [] ∧
    (tfmFormat "%.3s".toList [Value.vInt 12345]).buf = "123".toList ∧
    (tfmFormat "%.3s".toList [Value.vInt 12345]).errs = [] ∧
    (tfmFormat "%7.3s".toList [Value.vStr "hello".toList]).buf = "    hel".toList ∧
    (tfmFormat "%7.3s".toList [Value.vStr "hello".toList]).errs = [] := by
  refine ⟨?_, fun st buf errs ds v hds => c6_general st buf errs ds v hds,
    fun st buf errs w wds' ds v hw hw0 hds =>
      c6_width_general st buf errs w wds' ds v hw hw0 hds,
    by rfl, by rfl, by rfl, by rfl, by rfl, by rfl⟩
  intro o s n
  exact ⟨rfl, by simp [formatCStringTruncate, osWrite, Nat.min_comm]⟩

theorem string_precision_truncation_witness :
    (∃ t : List Char,
      (formatValueBasic ⟨defaultStreamState, [], []⟩ ('.' :: (['3'] ++ ['s']))
        (Value.vStr "hello".toList)).buf = [] ++ t ∧
      t.length ≤ digitsToNat ['3']) ∧
    (∃ t : List Char,
      (formatValueBasic ⟨defaultStreamState, [], []⟩ ('7' :: ([] ++ '.' :: (['3'] ++ ['s'])))
        (Value.vStr "hello".toList)).buf = [] ++ t ∧
      t.length ≤ max (digitsToNat ['3']) (digitsToNat ['7'])) :=
  ⟨string_precision_truncation.2.1 defaultStreamState [] [] ['3']
     (Value.vStr "hello".toList) (by decide),
   string_precision_truncation.2.2.1 defaultStreamState [] [] '7' [] ['3']
     (Value.vStr "hello".toList) (by decide) (by decide) (by decide)⟩

/-- C6, counterexample to the claim as stated: `%7.3s` is an `s`
conversion with precision N = 3, yet `format(sink, "%7.3s", "hello")`
writes `"    hel"` — 7 characters, more than N — because after the
truncation to 3 characters `out << result` pads the text to the field
width of 7. -/
theorem string_truncation_claim_counterexample :
    (tfmFormat "%7.3s".toList [Value.vStr "hello".toList]).buf = "    hel".toList ∧
    (tfmFormat "%7.3s".toList [Value.vStr "hello".toList]).buf.length = 7 ∧
    ¬((tfmFormat "%7.3s".toList [Value.vStr "hello".toList]).buf.length ≤ 3) ∧
    (tfmFormat "%7.3s".toList [Value.vStr "hello".toList]).errs = [] :=
  ⟨rfl, rfl, by decide, rfl⟩

set_option maxHeartbeats 1000000 in
theorem c7_general (st : StreamState) (buf : List Char) (errs : List String)
    (fl : List Char) (i : Int)
    (hfl : ∀ c ∈ fl, isFlagChar c = true) (hsp : ' ' ∈ fl) (hpl : '+' ∉ fl) :
    (formatValueBasic ⟨st, buf, errs⟩ (fl ++ ['d']) (Value.vInt i)).buf =
      buf ++ (if i < 0 then '-' :: natDigits 10 (-i).toNat
              else ' ' :: natDigits 10 i.toNat) := by
  have hsp' : fl.contains ' ' = true := List.elem_eq_true_of_mem hsp
  have hpl' : fl.contains '+' = false := by simpa using hpl
  have hfold : List.foldl applyFlag (resetState st, noExtra) fl =
      canonFlags st (fl.contains '#') (fl.contains '0') (fl.contains '-')
        (fl.contains ' ') (fl.contains '+') := by
    rw [← canonFlags_false st, foldl_applyFlag_canon st fl hfl]
    simp
  have h := streamState_flags_only_shape st fl 'd' hfl (by decide)
  rw [hfold, hsp', hpl'] at h
  simp [convSwitch, canonFlags, resetState] at h
  simp only [formatValueBasic, h]
  have hex : ((⟨false, true⟩ : Extra) = noExtra) = False := by simp [noExtra]
  simp only [hex, Bool.false_eq_true, if_false, if_true, true_and, false_and,
    List.append_nil, List.nil_append]
  have hconv : ((fl ++ ['d']).getLast?.getD nulChar) = 'd' := by
    rw [List.getLast?_concat]
    rfl
  rw [hconv]
  have hdc : (('d' : Char) = 'c') = False := by simp
  simp only [formatValue, hdc, if_false, osInsertInt, intToken]
  have hno : ∀ n : Nat, (natDigits 10 n).map (fun c => if c = '+' then ' ' else c) =
      natDigits 10 n :=
    fun n => map_unplus_of_no_plus _ (natDigits_no_plus 10 n (by decide) (by decide))
  by_cases hi : i < 0
  · rw [if_pos hi]
    simp only [hi, if_true]
    rw [padNumeric_zero _ _ _ rfl]
    simp only [osInsertStr, List.singleton_append, List.map_cons, hno]
    rw [padText_zero _ _ rfl]
    simp [hno]
  · rw [if_neg hi]
    simp only [hi, if_false, Bool.false_eq_true]
    rw [padNumeric_zero _ _ _ rfl]
    simp only [osInsertStr, List.singleton_append, List.map_cons, hno]
    rw [padText_zero _ _ rfl]
    simp [hno]

/-- C7: a directive carrying the `' '` flag without the `'+'` flag renders
the value into a temporary buffer with explicit-sign rendering forced and
every `'+'` in the buffered text replaced by a space, so that
`format(sink, "% d", 5)` produces `" 5"` and `format(sink, "% d", -5)`
produces `"-5"`. -/
theorem space_flag_pads_positive :
    (∀ (st : StreamState) (buf : List Char) (errs : List String) (fl : List Char) (i : Int),
      (∀ c ∈ fl, isFlagChar c = true) → ' ' ∈ fl → '+' ∉ fl →
      (formatValueBasic ⟨st, buf, errs⟩ (fl ++ ['d']) (Value.vInt i)).buf =
        buf ++ (if i < 0 then '-' :: natDigits 10 (-i).toNat
                else ' ' :: natDigits 10 i.toNat)) ∧
    (tfmFormat "% d".toList [Value.vInt 5]).buf = " 5".toList ∧
    (tfmFormat "% d".toList [Value.vInt 5]).errs = [] ∧
    (tfmFormat "% d".toList [Value.vInt (-5)]).buf = "-5".toList ∧
    (tfmFormat "% d".toList [Value.vInt (-5)]).errs = [] :=
  ⟨c7_general, by rfl, by rfl, by rfl, by rfl⟩

theorem space_flag_pads_positive_witness :
    (formatValueBasic ⟨defaultStreamState, [], []⟩ ([' '] ++ ['d']) (Value.vInt 5)).buf =
      [] ++ (if (5 : Int) < 0 then '-' :: natDigits 10 (-(5 : Int)).toNat
             else ' ' :: natDigits 10 (5 : Int).toNat) :=
  space_flag_pads_positive.1 defaultStreamState [] [] [' '] 5 (by decide) (by decide)
    (by decide)

/-- C8: flag parsing is idempotent and order-independent — the flag loop,
run from the reset state, lands in a state determined only by which of the
five flag characters occur (the canonical form `canonFlags`: `'0'` has no
effect when `'-'` (left alignment) is present, `'-'` resets the fill to
space, `' '` sets the space-pad side flag only when `'+'` is absent), so
any two flag sequences with the same member flags — regardless of order or
duplication — produce the same formatting context and side-channel flags. -/
theorem flag_parsing_order_independent (st : StreamState) (fl fl' : List Char)
    (h : ∀ c ∈ fl, isFlagChar c = true) (h' : ∀ c ∈ fl', isFlagChar c = true)
    (hh : fl.contains '#' = fl'.contains '#') (hz : fl.contains '0' = fl'.contains '0')
    (hm : fl.contains '-' = fl'.contains '-') (hs : fl.contains ' ' = fl'.contains ' ')
    (hp : fl.contains '+' = fl'.contains '+') :
    parseFlagsLoop (resetState st, noExtra) fl = parseFlagsLoop (resetState st, noExtra) fl' ∧
    parseFlagsLoop (resetState st, noExtra) fl =
      (canonFlags st (fl.contains '#') (fl.contains '0') (fl.contains '-')
        (fl.contains ' ') (fl.contains '+'), []) := by
  have e1 : parseFlagsLoop (resetState st, noExtra) fl =
      (List.foldl applyFlag (resetState st, noExtra) fl, []) := by
    have := parseFlagsLoop_flags (resetState st, noExtra) fl h [] (by decide)
    simpa using this
  have e2 : parseFlagsLoop (resetState st, noExtra) fl' =
      (List.foldl applyFlag (resetState st, noExtra) fl', []) := by
    have := parseFlagsLoop_flags (resetState st, noExtra) fl' h' [] (by decide)
    simpa using this
  have c1 : List.foldl applyFlag (resetState st, noExtra) fl =
      canonFlags st (fl.contains '#') (fl.contains '0') (fl.contains '-')
        (fl.contains ' ') (fl.contains '+') := by
    rw [← canonFlags_false st, foldl_applyFlag_canon st fl h]
    simp
  have c2 : List.foldl applyFlag (resetState st, noExtra) fl' =
      canonFlags st (fl'.contains '#') (fl'.contains '0') (fl'.contains '-')
        (fl'.contains ' ') (fl'.contains '+') := by
    rw [← canonFlags_false st, foldl_applyFlag_canon st fl' h']
    simp
  refine ⟨?_, by rw [e1, c1]⟩
  rw [e1, e2, c1, c2, hh, hz, hm, hs, hp]

theorem flag_parsing_order_independent_witness :
    parseFlagsLoop (resetState defaultStreamState, noExtra) ['0', '-', ' '] =
      parseFlagsLoop (resetState defaultStreamState, noExtra) [' ', '-', '0', '0'] :=
  (flag_parsing_order_independent defaultStreamState ['0', '-', ' '] [' ', '-', '0', '0']
    (by decide) (by decide) (by decide) (by decide) (by decide) (by decide) (by decide)).1

theorem tfm_one_spec (v : Value) (t : Char) (ht : t ≠ '%') (htc : isConvTermChar t = true) :
    tfmFormat ['%', t] [v] =
      formatImpl [] (formatValueBasic ⟨defaultStreamState, [], []⟩ [t] v) [] := by
  rw [show tfmFormat ['%', t] [v] = formatImpl [v] ⟨defaultStreamState, [], []⟩ ['%', t] from rfl,
    formatImpl_cons]
  rw [printLit_pct_ne t [] ht]
  rw [ffse_of_ne [t] (by simp), ffseLoop_cons_term t [] htc]
  simp [osWrite]

theorem formatImpl_nil_nil (o : OS) : (formatImpl [] o []).buf = o.buf ∧
    (formatImpl [] o []).errs = o.errs := by
  rw [formatImpl_nil]
  constructor <;> simp [osWrite, printFormatStringLiteral]

theorem c9_int_like (ch : Char) (h : ch.toNat < 128) (t : Char)
    (ht : t = 'd' ∨ t = 'i' ∨ t = 'u') :
    (formatValueBasic ⟨defaultStreamState, [], []⟩ [t] (Value.vChar ch)).buf =
      natDigits 10 ch.toNat ∧
    (formatValueBasic ⟨defaultStreamState, [], []⟩ [t] (Value.vChar ch)).errs = [] := by
  have hcast : charToIntCpp ch = (ch.toNat : Int) := by simp [charToIntCpp, h]
  have hpos : (((ch.toNat : Int)) < 0) = False := by simp
  rcases ht with ht | ht | ht <;> subst ht <;>
    simp only [formatValueBasic,
      show streamStateFromFormat defaultStreamState ['d'] = (defaultStreamState, noExtra, [])
        from rfl,
      show streamStateFromFormat defaultStreamState ['i'] = (defaultStreamState, noExtra, [])
        from rfl,
      show streamStateFromFormat defaultStreamState ['u'] = (defaultStreamState, noExtra, [])
        from rfl] <;>
    simp [formatValue, hcast, osInsertInt, intToken, defaultStreamState, padNumeric,
      Int.toNat_natCast, hpos]

theorem c9_oct (ch : Char) (h : ch.toNat < 128) :
    (formatValueBasic ⟨defaultStreamState, [], []⟩ ['o'] (Value.vChar ch)).buf =
      natDigits 8 ch.toNat ∧
    (formatValueBasic ⟨defaultStreamState, [], []⟩ ['o'] (Value.vChar ch)).errs = [] := by
  have hcast : charToIntCpp ch = (ch.toNat : Int) := by simp [charToIntCpp, h]
  have hmod : ((ch.toNat : Int)).emod 4294967296 = (ch.toNat : Int) :=
    Int.emod_eq_of_lt (by positivity)
      (by exact_mod_cast (show ch.toNat < 4294967296 by omega))
  simp only [formatValueBasic,
    show streamStateFromFormat defaultStreamState ['o'] =
      (⟨0, 6, ' ', ⟨Adjust.adjNone, BaseField.baseOct, FloatField.floatNone,
        false, false, false, false, false⟩⟩, noExtra, []) from rfl]
  simp [formatValue, hcast, osInsertInt, intToken, padNumeric, hmod, Int.toNat_natCast]

theorem c9_hex (ch : Char) (h : ch.toNat < 128) :
    (formatValueBasic ⟨defaultStreamState, [], []⟩ ['x'] (Value.vChar ch)).buf =
      natDigits 16 ch.toNat ∧
    (formatValueBasic ⟨defaultStreamState, [], []⟩ ['X'] (Value.vChar ch)).buf =
      (natDigits 16 ch.toNat).map Char.toUpper := by
  have hcast : charToIntCpp ch = (ch.toNat : Int) := by simp [charToIntCpp, h]
  have hmod : ((ch.toNat : Int)).emod 4294967296 = (ch.toNat : Int) :=
    Int.emod_eq_of_lt (by positivity)
      (by exact_mod_cast (show ch.toNat < 4294967296 by omega))
  constructor
  · simp only [formatValueBasic,
      show streamStateFromFormat defaultStreamState ['x'] =
        (⟨0, 6, ' ', ⟨Adjust.adjNone, BaseField.baseHex, FloatField.floatNone,
          false, false, false, false, false⟩⟩, noExtra, []) from rfl]
    simp [formatValue, hcast, osInsertInt, intToken, padNumeric, hmod, Int.toNat_natCast]
  · simp only [formatValueBasic,
      show streamStateFromFormat defaultStreamState ['X'] =
        (⟨0, 6, ' ', ⟨Adjust.adjNone, BaseField.baseHex, FloatField.floatNone,
          false, false, false, true, false⟩⟩, noExtra, []) from rfl]
    simp [formatValue, hcast, osInsertInt, intToken, padNumeric, hmod, Int.toNat_natCast]

theorem c9_char_out (ch : Char) (t : Char) (ht : t = 'c' ∨ t = 's') :
    (formatValueBasic ⟨defaultStreamState, [], []⟩ [t] (Value.vChar ch)).buf = [ch] ∧
    (formatValueBasic ⟨defaultStreamState, [], []⟩ [t] (Value.vChar ch)).errs = [] := by
  rcases ht with ht | ht <;> subst ht <;>
    simp only [formatValueBasic,
      show streamStateFromFormat defaultStreamState ['c'] =
        (⟨0, 6, ' ', ⟨Adjust.adjNone, BaseField.baseNone, FloatField.floatNone,
          false, false, false, false, false⟩⟩, noExtra, []) from rfl,
      show streamStateFromFormat defaultStreamState ['s'] =
        (⟨0, 6, ' ', ⟨Adjust.adjNone, BaseField.baseNone, FloatField.floatNone,
          false, false, false, false, false⟩⟩, noExtra, []) from rfl] <;>
    simp [formatValue, osInsertChar, padText]

/-- C9: a narrow-character-typed value rendered under a conversion
character in `u d i o x X` produces the decimal/octal/hex text of the
character's integer value, and under any other conversion character (for
example `c` or `s`) produces the single character itself; for `'A'`, `%c`
yields `"A"` and `%d` yields `"65"`. -/
theorem char_value_rendering :
    (∀ ch : Char,
      (tfmFormat ['%', 'c'] [Value.vChar ch]).buf = [ch] ∧
      (tfmFormat ['%', 'c'] [Value.vChar ch]).errs = [] ∧
      (tfmFormat ['%', 's'] [Value.vChar ch]).buf = [ch]) ∧
    (∀ ch : Char, ch.toNat < 128 →
      (tfmFormat ['%', 'd'] [Value.vChar ch]).buf = natDigits 10 ch.toNat ∧
      (tfmFormat ['%', 'd'] [Value.vChar ch]).errs = [] ∧
      (tfmFormat ['%', 'i'] [Value.vChar ch]).buf = natDigits 10 ch.toNat ∧
      (tfmFormat ['%', 'u'] [Value.vChar ch]).buf = natDigits 10 ch.toNat ∧
      (tfmFormat ['%', 'o'] [Value.vChar ch]).buf = natDigits 8 ch.toNat ∧
      (tfmFormat ['%', 'x'] [Value.vChar ch]).buf = natDigits 16 ch.toNat ∧
      (tfmFormat ['%', 'X'] [Value.vChar ch]).buf =
        (natDigits 16 ch.toNat).map Char.toUpper) ∧
    (tfmFormat ['%', 'c'] [Value.vChar 'A']).buf = ['A'] ∧
    (tfmFormat ['%', 'd'] [Value.vChar 'A']).buf = ['6', '5'] := by
  refine ⟨?_, ?_, by rfl, by rfl⟩
  · intro ch
    rw [tfm_one_spec (Value.vChar ch) 'c' (by decide) (by decide),
      tfm_one_spec (Value.vChar ch) 's' (by decide) (by decide)]
    exact ⟨by rw [(formatImpl_nil_nil _).1]; exact (c9_char_out ch 'c' (Or.inl rfl)).1,
      by rw [(formatImpl_nil_nil _).2]
            ; simp [formatValueBasic_errs,
                show streamStateFromFormat defaultStreamState ['c'] =
                  (⟨0, 6, ' ', ⟨Adjust.adjNone, BaseField.baseNone, FloatField.floatNone,
                    false, false, false, false, false⟩⟩, noExtra, []) from rfl],
      by rw [(formatImpl_nil_nil _).1]; exact (c9_char_out ch 's' (Or.inr rfl)).1⟩
  · intro ch h
    rw [tfm_one_spec (Value.vChar ch) 'd' (by decide) (by decide),
      tfm_one_spec (Value.vChar ch) 'i' (by decide) (by decide),
      tfm_one_spec (Value.vChar ch) 'u' (by decide) (by decide),
      tfm_one_spec (Value.vChar ch) 'o' (by decide) (by decide),
      tfm_one_spec (Value.vChar ch) 'x' (by decide) (by decide),
      tfm_one_spec (Value.vChar ch) 'X' (by decide) (by decide)]
    refine ⟨?_, ?_, ?_, ?_, ?_, ?_, ?_⟩
    · rw [(formatImpl_nil_nil _).1]; exact (c9_int_like ch h 'd' (Or.inl rfl)).1
    · rw [(formatImpl_nil_nil _).2]
      rw [(c9_int_like ch h 'd' (Or.inl rfl)).2]
    · rw [(formatImpl_nil_nil _).1]; exact (c9_int_like ch h 'i' (Or.inr (Or.inl rfl))).1
    · rw [(formatImpl_nil_nil _).1]; exact (c9_int_like ch h 'u' (Or.inr (Or.inr rfl))).1
    · rw [(formatImpl_nil_nil _).1]; exact (c9_oct ch h).1
    · rw [(formatImpl_nil_nil _).1]; exact (c9_hex ch h).1
    · rw [(formatImpl_nil_nil _).1]; exact (c9_hex ch h).2

theorem char_value_rendering_witness :
    (tfmFormat ['%', 'd'] [Value.vChar 'A']).buf = natDigits 10 'A'.toNat ∧
    (tfmFormat ['%', 'd'] [Value.vChar 'A']).errs = [] ∧
    (tfmFormat ['%', 'i'] [Value.vChar 'A']).buf = natDigits 10 'A'.toNat ∧
    (tfmFormat ['%', 'u'] [Value.vChar 'A']).buf = natDigits 10 'A'.toNat ∧
    (tfmFormat ['%', 'o'] [Value.vChar 'A']).buf = natDigits 8 'A'.toNat ∧
    (tfmFormat ['%', 'x'] [Value.vChar 'A']).buf = natDigits 16 'A'.toNat ∧
    (tfmFormat ['%', 'X'] [Value.vChar 'A']).buf =
      (natDigits 16 'A'.toNat).map Char.toUpper :=
  char_value_rendering.2.1 'A' (by decide)

/-- The conversion characters given a case in the `switch` (the documented
conversion set "diouxXeEfFgGaAcspn"). -/
def knownConvChars : List Char :=
  ['d', 'i', 'o', 'u', 'x', 'X', 'e', 'E', 'f', 'F', 'g', 'G', 'a', 'A', 'c', 's', 'p', 'n']

theorem convSwitch_unknown (st : StreamState) (ex : Extra) (ps : Bool) (t : Char)
    (h : t ∉ knownConvChars) : convSwitch st ex ps t = (st, ex, false) := by
  simp only [knownConvChars, List.mem_cons, List.not_mem_nil, or_false, not_or] at h
  obtain ⟨h1, h2, h3, h4, h5, h6, h7, h8, h9, h10, h11, h12, h13, h14, h15, h16, h17, h18⟩ := h
  simp [convSwitch, h1, h2, h3, h4, h5, h6, h7, h8, h9, h10, h11, h12, h13, h14, h15,
    h16, h17, h18]

theorem c10_unknown_state (st : StreamState) (t : Char) (htc : isConvTermChar t = true)
    (hk : t ∉ knownConvChars) :
    streamStateFromFormat st [t] = (resetState st, noExtra, []) := by
  have h := streamState_flags_only_shape st [] t (by simp) htc
  simp only [List.nil_append, List.foldl_nil] at h
  rw [h]
  have hn : t ≠ 'n' := by
    intro he; exact hk (by simp [knownConvChars, he])
  simp [convSwitch_unknown _ _ _ _ hk, hn]

set_option maxHeartbeats 2000000 in
theorem c10_render (t : Char) (i : Int) (htc : isConvTermChar t = true)
    (hk : t ∉ knownConvChars) :
    (tfmFormat ['%', t] [Value.vInt i]).buf =
      (if i < 0 then '-' :: natDigits 10 (-i).toNat else natDigits 10 i.toNat) ∧
    (tfmFormat ['%', t] [Value.vInt i]).errs = [] := by
  have htA : isAlphaChar t = true := by
    simp only [isConvTermChar, Bool.and_eq_true] at htc; exact htc.1
  have hpct : t ≠ '%' := alpha_ne_pct t htA
  have hc : t ≠ 'c' := by
    intro he; exact hk (by simp [knownConvChars, he])
  rw [tfm_one_spec (Value.vInt i) t hpct htc]
  have h2 : streamStateFromFormat defaultStreamState [t] =
      (⟨0, 6, ' ', ⟨Adjust.adjNone, BaseField.baseNone, FloatField.floatNone,
        false, false, false, false, false⟩⟩, ⟨false, false⟩, []) := by
    rw [c10_unknown_state defaultStreamState t htc hk]; rfl
  constructor
  · rw [(formatImpl_nil_nil _).1]
    unfold formatValueBasic
    rw [h2]
    have hgl : ([t].getLast?.getD nulChar) = t := rfl
    simp only [hgl]
    simp only [formatValue, hc, if_false]
    by_cases hi : i < 0 <;> simp [hi, osInsertInt, intToken, padNumeric, noExtra]
  · rw [(formatImpl_nil_nil _).2, formatValueBasic_errs]
    simp [h2]

/-- C10: a directive whose terminating character is a letter outside both
the length-modifier set and the documented conversion set (for example
`%q`) raises no error: the unknown letter terminates the directive, the
interpreter leaves the stream state at its reset defaults (numeric base,
case and float style cleared), and the argument is rendered through the
generic insertion path. -/
theorem unknown_conversion_no_error :
    (∀ (st : StreamState) (t : Char), isConvTermChar t = true → t ∉ knownConvChars →
      streamStateFromFormat st [t] = (resetState st, noExtra, [])) ∧
    (∀ (t : Char) (rest : List Char), isConvTermChar t = true →
      findFormatSpecEnd (t :: rest) = ([t], rest, [])) ∧
    (∀ (t : Char) (i : Int), isConvTermChar t = true → t ∉ knownConvChars →
      (tfmFormat ['%', t] [Value.vInt i]).buf =
        (if i < 0 then '-' :: natDigits 10 (-i).toNat else natDigits 10 i.toNat) ∧
      (tfmFormat ['%', t] [Value.vInt i]).errs = []) ∧
    (tfmFormat ['%', 'q'] [Value.vInt 42]).buf = ['4', '2'] ∧
    (tfmFormat ['%', 'q'] [Value.vInt 42]).errs = [] := by
  refine ⟨c10_unknown_state, ?_, c10_render, by rfl, by rfl⟩
  intro t rest htc
  rw [ffse_of_ne _ (by simp), ffseLoop_cons_term t rest htc]

theorem unknown_conversion_no_error_witness :
    (tfmFormat ['%', 'q'] [Value.vInt (-3)]).buf =
      (if (-3 : Int) < 0 then '-' :: natDigits 10 (-(-3 : Int)).toNat
       else natDigits 10 (-3 : Int).toNat) ∧
    (tfmFormat ['%', 'q'] [Value.vInt (-3)]).errs = [] :=
  unknown_conversion_no_error.2.2.1 'q' (-3) (by decide) (by decide)

end Tinyformat
